import Mathlib

/-!
# console-example: the session controller (`console/console.go`)

A shallow embedding of the bubbletea model of `console/console.go`
(`initialModel`, `Update`, `renderStatusBar`, `renderTabs`, `View`) and the
properties of its event handling.

* Go `int` is `Int` with two's complement wrap-around at 64 bits.
* A Go run-time panic (index out of range, integer division by zero) is the
  error of `Except Panic`.
* The command-execution collaborator is a pure function; the calls an event
  makes to it are recorded in the `calls` field of the step result.
* The components of `bubbles` (`textinput`, `viewport`), `lipgloss` rendering
  and `tea.Batch` are not part of this repository: the fields the controller
  reads and writes directly (`Width`, `Height`, `Placeholder`) are concrete,
  everything else is taken as a parameter (`Lib`).
-/

namespace Console

/-! ## Go primitives -/

/-- A Go run-time panic. -/
inductive Panic where
  | divideByZero
  | indexOutOfRange
  deriving DecidableEq, Repr

/-- Two's complement wrap-around of a 64-bit Go `int`. -/
def wrap64 (x : Int) : Int :=
  (x + 9223372036854775808) % 18446744073709551616 - 9223372036854775808

/-- Go `a + b` on `int`. -/
def add64 (a b : Int) : Int := wrap64 (a + b)

/-- Go `a - b` on `int`. -/
def sub64 (a b : Int) : Int := wrap64 (a - b)

/-- Go `a % b` on `int`: truncated remainder, panics when `b` is zero. -/
def rem64 (a b : Int) : Except Panic Int :=
  if b = 0 then .error .divideByZero else .ok (wrap64 (Int.tmod a b))

/-- Go `len(xs)`. -/
def len {α : Type} (xs : List α) : Int := (xs.length : Int)

/-- Go `xs[i]` as a read: panics when `i` is out of range. -/
def index {α : Type} (xs : List α) (i : Int) : Except Panic α :=
  if 0 ≤ i then
    match xs[i.toNat]? with
    | some x => .ok x
    | none => .error .indexOutOfRange
  else .error .indexOutOfRange

/-- Go `xs[i] = v`: panics when `i` is out of range. -/
def setIndex {α : Type} (xs : List α) (i : Int) (v : α) : Except Panic (List α) :=
  if 0 ≤ i ∧ i.toNat < xs.length then .ok (xs.set i.toNat v) else .error .indexOutOfRange

/-- Go `xs[i].method()` with a pointer receiver, or `xs[i] op= e`: the element
is replaced by `f` of itself; panics when `i` is out of range. -/
def modifyAt {α : Type} (xs : List α) (i : Int) (f : α → α) : Except Panic (List α) := do
  let x ← index xs i
  setIndex xs i (f x)

/-- Go `strings.HasSuffix(s, suffix)`:
`len(s) >= len(suffix) && s[len(s)-len(suffix):] == suffix`. -/
def HasSuffix (s suffix : String) : Bool :=
  decide (suffix.data.length ≤ s.data.length) &&
    (s.data.drop (s.data.length - suffix.data.length) == suffix.data)

/-! ## bubbletea messages and commands -/

/-- The key types of `tea.KeyType` that `Update` distinguishes; every other
key type is `KeyOther`. -/
inductive KeyType where
  | KeyCtrlC | KeyEsc | KeyTab | KeyEnter
  | KeyCtrlLeft | KeyCtrlRight
  | KeyLeft | KeyRight | KeyUp | KeyDown | KeyPgUp | KeyPgDown
  | KeyRunes
  | KeyOther (code : Nat)
  deriving DecidableEq, Repr

/-- The message `tea.KeyMsg`. -/
structure KeyMsg where
  type : KeyType
  Runes : List Char
  Alt : Bool
  deriving DecidableEq, Repr

/-- A bubbletea message `tea.Msg`: a key, a window size, or any other message
(blink ticks, mouse events, ...). -/
inductive Msg where
  | KeyMsg (k : KeyMsg)
  | WindowSizeMsg (Width Height : Int)
  | other (tag : Nat)
  deriving DecidableEq, Repr

/-- A bubbletea command `tea.Cmd`: `nil`, `tea.Quit`, `textarea.Blink`, a
command returned by a library component, or `tea.Batch(cmds...)`. -/
inductive Cmd where
  | nil
  | Quit
  | Blink
  | lib (tag : Nat)
  | Batch (cmds : List Cmd)

/-- The function type `ExecuteCommand` of `app.go`: tab name and command to the
output and the failure, `none` for a nil error and `some e` for an error whose
`Error()` is `e`. -/
abbrev ExecuteCommand := String → String → String × Option String

/-! ## lipgloss styles -/

/-- The border shapes used by the styles. -/
inductive Border where
  | NormalBorder | RoundedBorder | HiddenBorder
  deriving DecidableEq, Repr

/-- A lipgloss style value: the properties the style declarations set. -/
structure Style where
  marginTop : Int := 0
  marginRight : Int := 0
  marginBottom : Int := 0
  marginLeft : Int := 0
  paddingTop : Int := 0
  paddingRight : Int := 0
  paddingBottom : Int := 0
  paddingLeft : Int := 0
  background : Option String := none
  foreground : Option String := none
  bold : Bool := false
  border : Option Border := none
  borderTop : Bool := false
  borderRight : Bool := false
  borderBottom : Bool := false
  borderLeft : Bool := false
  borderForeground : Option String := none
  width : Option Int := none
  deriving DecidableEq, Repr

namespace Style

/-- The empty style of `lipgloss.NewStyle()`. -/
def NewStyle : Style := {}

/-- The two-argument `Margin(v, h)`: `v` above and below, `h` right and left. -/
def Margin (s : Style) (v h : Int) : Style :=
  { s with marginTop := v, marginRight := h, marginBottom := v, marginLeft := h }

/-- The two-argument `Padding(v, h)`. -/
def Padding (s : Style) (v h : Int) : Style :=
  { s with paddingTop := v, paddingRight := h, paddingBottom := v, paddingLeft := h }

/-- The setter `Background(c)`. -/
def Background (s : Style) (c : String) : Style := { s with background := some c }

/-- The setter `Foreground(c)`. -/
def Foreground (s : Style) (c : String) : Style := { s with foreground := some c }

/-- The setter `Bold(b)`. -/
def Bold (s : Style) (b : Bool) : Style := { s with bold := b }

/-- The one-argument `Border(b)`: the border on all four sides. -/
def Border (s : Style) (b : Console.Border) : Style :=
  { s with border := some b, borderTop := true, borderRight := true,
           borderBottom := true, borderLeft := true }

/-- The five-argument `Border(b, top, right, bottom, left)`. -/
def BorderSides (s : Style) (b : Console.Border) (top right bottom left : Bool) : Style :=
  { s with border := some b, borderTop := top, borderRight := right,
           borderBottom := bottom, borderLeft := left }

/-- The setter `BorderForeground(c)`. -/
def BorderForeground (s : Style) (c : String) : Style := { s with borderForeground := some c }

/-- The setter `Width(w)`. -/
def Width (s : Style) (w : Int) : Style := { s with width := some w }

/-- The width in cells of an edge of a border: one cell for each of the three
border shapes used here (the hidden border is drawn with blanks). -/
def edgeSize (s : Style) (enabled : Bool) : Int :=
  match s.border with
  | none => 0
  | some _ => if enabled then 1 else 0

/-- The getter `GetVerticalMargins()`: top margin plus bottom margin. -/
def GetVerticalMargins (s : Style) : Int := s.marginTop + s.marginBottom

/-- The getter `GetHorizontalMargins()`: left margin plus right margin. -/
def GetHorizontalMargins (s : Style) : Int := s.marginLeft + s.marginRight

/-- The getter `GetVerticalBorderSize()`: top edge plus bottom edge. -/
def GetVerticalBorderSize (s : Style) : Int :=
  s.edgeSize s.borderTop + s.edgeSize s.borderBottom

/-- The getter `GetHorizontalBorderSize()`: left edge plus right edge. -/
def GetHorizontalBorderSize (s : Style) : Int :=
  s.edgeSize s.borderLeft + s.edgeSize s.borderRight

end Style

/-- The style `docStyle`. -/
def docStyle : Style := Style.NewStyle.Margin 1 2

/-- The style `statusBar`. -/
def statusBar : Style := ((Style.NewStyle.Background "0").Foreground "6").Padding 0 1

/-- The style `activeTabStyle`. -/
def activeTabStyle : Style :=
  (((Style.NewStyle.Background "0").Foreground "5").Padding 0 1).Bold true

/-- The style `inactiveTabStyle`. -/
def inactiveTabStyle : Style := ((Style.NewStyle.Background "0").Foreground "2").Padding 0 1

/-- The style `viewportStyle`. -/
def viewportStyle : Style := (Style.NewStyle.Border .RoundedBorder).Padding 0 1

/-- The style `inputTextStyle`. -/
def inputTextStyle : Style := Style.NewStyle.Border .HiddenBorder

/-- The style `tabBorderStyle`. -/
def tabBorderStyle : Style :=
  (Style.NewStyle.BorderSides .NormalBorder false false false true).BorderForeground "8"

/-- The style `helpStyle`. -/
def helpStyle : Style := Style.NewStyle.Foreground "240"

/-! ## The library components -/

/-- The component `textinput.Model`: its exported fields `Placeholder` and
`Width`, which the controller assigns, and the rest of its state. -/
structure TextInput (σ : Type) where
  Placeholder : String
  Width : Int
  core : σ

/-- The component `viewport.Model`: its exported fields `Width` and `Height`,
which the controller assigns, and the rest of its state. -/
structure Viewport (ν : Type) where
  Width : Int
  Height : Int
  core : ν

/-- The operations of bubbles and lipgloss that the controller calls, over the
component states `σ` (text input) and `ν` (viewport). -/
structure Lib (σ ν : Type) where
  /-- The constructor `textinput.New()`. -/
  tiNew : TextInput σ
  /-- The method `Focus()` of the text input (its command is dropped by the caller). -/
  tiFocus : TextInput σ → TextInput σ
  /-- The method `Focused()` of the text input. -/
  tiFocused : TextInput σ → Bool
  /-- The method `Value()` of the text input. -/
  tiValue : TextInput σ → String
  /-- The method `Reset()` of the text input. -/
  tiReset : TextInput σ → TextInput σ
  /-- The method `Update(msg)` of the text input. -/
  tiUpdate : TextInput σ → Msg → TextInput σ × Cmd
  /-- The method `View()` of the text input. -/
  tiView : TextInput σ → String
  /-- The state of the zero value of `viewport.Model`. -/
  vpZero : ν
  /-- The constructor `viewport.New(width, height)`. -/
  vpNew : Int → Int → Viewport ν
  /-- The method `SetContent(s)` of the viewport. -/
  vpSetContent : Viewport ν → String → Viewport ν
  /-- The method `GotoTop()` of the viewport. -/
  vpGotoTop : Viewport ν → Viewport ν
  /-- The method `GotoBottom()` of the viewport. -/
  vpGotoBottom : Viewport ν → Viewport ν
  /-- The method `ScrollLeft(n)` of the viewport. -/
  vpScrollLeft : Viewport ν → Int → Viewport ν
  /-- The method `ScrollRight(n)` of the viewport. -/
  vpScrollRight : Viewport ν → Int → Viewport ν
  /-- The method `Update(msg)` of the viewport. -/
  vpUpdate : Viewport ν → Msg → Viewport ν × Cmd
  /-- The method `View()` of the viewport. -/
  vpView : Viewport ν → String
  /-- The method `Render(text)` of a style. -/
  Render : Style → String → String
  /-- The function `lipgloss.Height(text)`. -/
  Height : String → Int
  /-- The function `lipgloss.JoinHorizontal(lipgloss.Top, strs...)`. -/
  JoinHorizontal : List String → String
  /-- The function `lipgloss.JoinVertical(lipgloss.Left, strs...)`. -/
  JoinVertical : List String → String

/-! ## The model -/

/-- The struct `model`. -/
structure model (σ ν : Type) where
  tabs : List String
  activeTab : Int
  tabContents : List String
  tabViewports : List (Viewport ν)
  inputText : TextInput σ
  width : Int
  height : Int
  ready : Bool
  execute : ExecuteCommand

/-- What one call of `Update` returns, `(tea.Model, tea.Cmd)`, together with
the calls `(tab, command)` it made to `m.execute`, in order. -/
structure Step (σ ν : Type) where
  m : model σ ν
  cmd : Cmd
  calls : List (String × String)

variable {σ ν : Type}

/-- The function `initialModel(tabs, execute)`. -/
def initialModel (L : Lib σ ν) (tabs : List String) (execute : ExecuteCommand) : model σ ν :=
  let tabContents : List String := List.replicate tabs.length ""
  let tabViewports : List (Viewport ν) :=
    List.replicate tabs.length { Width := 0, Height := 0, core := L.vpZero }
  -- for i := 0; i < len(tabContents); i++ { tabContents[i] = "" }
  let tabContents := (List.range tabContents.length).foldl (fun tc i => tc.set i "") tabContents
  let input := L.tiNew
  let input := { input with Placeholder := "Type something and press Enter..." }
  let input := L.tiFocus input
  { tabs := tabs
    activeTab := 0
    tabContents := tabContents
    tabViewports := tabViewports
    inputText := input
    width := 0
    height := 0
    ready := false
    execute := execute }

/-- The method `renderStatusBar`. -/
def renderStatusBar (L : Lib σ ν) (m : model σ ν) : Except Panic String :=
  if !m.ready then
    .ok (L.Render statusBar "Initializing...")
  else do
    let tab ← index m.tabs m.activeTab
    let statusText := "Active: " ++ tab ++ " | Total: " ++ toString (len m.tabs) ++
      " | Ctrl+C to quit | Type clear to clear tab"
    .ok (L.Render (statusBar.Width (sub64 m.width docStyle.GetHorizontalMargins)) statusText)

/-- The loop body of `renderTabs`: the rendered tab names, the active one in
`activeTabStyle`. -/
def renderTabNames (L : Lib σ ν) (activeTab : Int) : Nat → List String → List String
  | _, [] => []
  | i, t :: ts =>
    L.Render (if (i : Int) = activeTab then activeTabStyle else inactiveTabStyle) t ::
      renderTabNames L activeTab (i + 1) ts

/-- The method `renderTabs`. -/
def renderTabs (L : Lib σ ν) (m : model σ ν) : String :=
  if !m.ready then
    ""
  else
    let renderedTabs := renderTabNames L m.activeTab 0 m.tabs
    L.Render (tabBorderStyle.Width (sub64 m.width docStyle.GetHorizontalMargins))
      (L.JoinHorizontal renderedTabs)

/-- The `tea.KeyTab` case of `Update` (`m.inputText` already updated, `cmds`
holding its command). -/
def updateTab (L : Lib σ ν) (m : model σ ν) (cmds : List Cmd) : Except Panic (Step σ ν) := do
  let a ← rem64 (add64 m.activeTab 1) (len m.tabs)
  let m := { m with activeTab := a }
  let m ←
    if m.ready then do
      let c ← index m.tabContents m.activeTab
      let vps ← modifyAt m.tabViewports m.activeTab (fun vp => L.vpSetContent vp c)
      pure { m with tabViewports := vps }
    else pure m
  let m := { m with inputText := L.tiFocus m.inputText }
  let cmds := cmds ++ [Cmd.Blink]
  pure { m := m, cmd := .Batch cmds, calls := [] }

/-- The `tea.KeyEnter` case of `Update`. -/
def updateEnter (L : Lib σ ν) (m : model σ ν) (cmds : List Cmd) : Except Panic (Step σ ν) :=
  if L.tiFocused m.inputText && L.tiValue m.inputText != "" then
    let newText := L.tiValue m.inputText
    if newText == "clear" then do
      let tc ← setIndex m.tabContents m.activeTab ""
      let m := { m with tabContents := tc }
      let c ← index m.tabContents m.activeTab
      let vps ← modifyAt m.tabViewports m.activeTab (fun vp => L.vpSetContent vp c)
      let vps ← modifyAt vps m.activeTab L.vpGotoTop
      let m := { m with tabViewports := vps }
      let m := { m with inputText := L.tiReset m.inputText }
      let m := { m with inputText := L.tiFocus m.inputText }
      pure { m := m, cmd := .nil, calls := [] }
    else do
      let tab ← index m.tabs m.activeTab
      let (output, err) := m.execute tab newText
      let cur ← index m.tabContents m.activeTab
      let tc ←
        if cur != "" && !HasSuffix cur "\n" then
          modifyAt m.tabContents m.activeTab (fun s => s ++ "\n")
        else pure m.tabContents
      let tc ←
        match err with
        | some e => modifyAt tc m.activeTab (fun s => s ++ (output ++ "\n" ++ e))
        | none => modifyAt tc m.activeTab (fun s => s ++ (output ++ "\n"))
      let m := { m with tabContents := tc }
      let c ← index m.tabContents m.activeTab
      let vps ← modifyAt m.tabViewports m.activeTab (fun vp => L.vpSetContent vp c)
      let vps ← modifyAt vps m.activeTab L.vpGotoBottom
      let m := { m with tabViewports := vps }
      let m := { m with inputText := L.tiReset m.inputText }
      let m := { m with inputText := L.tiFocus m.inputText }
      let cmds := cmds ++ [Cmd.Blink]
      pure { m := m, cmd := .Batch cmds, calls := [(tab, newText)] }
  else
    pure { m := m, cmd := .Batch cmds, calls := [] }

/-- The `tea.KeyCtrlLeft` (`left = true`) and `tea.KeyCtrlRight` cases of `Update`. -/
def updateCtrl (L : Lib σ ν) (left : Bool) (m : model σ ν) (cmds : List Cmd) :
    Except Panic (Step σ ν) :=
  if m.ready && decide (len m.tabViewports > m.activeTab) then do
    let vps ← modifyAt m.tabViewports m.activeTab
      (fun vp => if left then L.vpScrollLeft vp 5 else L.vpScrollRight vp 5)
    pure { m := { m with tabViewports := vps }, cmd := .nil, calls := [] }
  else
    pure { m := m, cmd := .Batch cmds, calls := [] }

/-- The `default` case of the key switch of `Update`. -/
def updateDefault (L : Lib σ ν) (msg : KeyMsg) (m : model σ ν) (cmds : List Cmd) :
    Except Panic (Step σ ν) :=
  if m.ready && decide (len m.tabViewports > m.activeTab) then
    let isArrowKey := msg.type == KeyType.KeyLeft || msg.type == KeyType.KeyRight ||
      msg.type == KeyType.KeyUp || msg.type == KeyType.KeyDown ||
      msg.type == KeyType.KeyPgUp || msg.type == KeyType.KeyPgDown
    if isArrowKey then do
      let vp ← index m.tabViewports m.activeTab
      let (vp, cmd) := L.vpUpdate vp (.KeyMsg msg)
      let vps ← setIndex m.tabViewports m.activeTab vp
      let cmds := cmds ++ [cmd]
      pure { m := { m with tabViewports := vps }, cmd := .Batch cmds, calls := [] }
    else
      pure { m := m, cmd := .Batch cmds, calls := [] }
  else
    pure { m := m, cmd := .Batch cmds, calls := [] }

/-- The first-layout loop of `Update`: for `i` over `range m.tabs`, a new
viewport of the given size with `SetContent(m.tabContents[i])` is stored in
`m.tabViewports[i]`. -/
def firstLayout (L : Lib σ ν) (viewportWidth viewportContentHeight : Int)
    (tabs tabContents : List String) (tabViewports : List (Viewport ν)) :
    Except Panic (List (Viewport ν)) :=
  (List.range tabs.length).foldlM
    (fun vps (i : Nat) => do
      let vp := L.vpNew viewportWidth viewportContentHeight
      let c ← index tabContents (i : Int)
      let vp := L.vpSetContent vp c
      setIndex vps (i : Int) vp)
    tabViewports

/-- The resize loop of `Update`: for `i` over `range m.tabViewports`, the
viewport `i` gets the new `Width` and `Height` and `SetContent(m.tabContents[i])`. -/
def resizeAll (L : Lib σ ν) (viewportWidth viewportContentHeight : Int)
    (tabContents : List String) (tabViewports : List (Viewport ν)) :
    Except Panic (List (Viewport ν)) :=
  (List.range tabViewports.length).foldlM
    (fun vps (i : Nat) => do
      let vps ← modifyAt vps (i : Int) (fun vp => { vp with Width := viewportWidth })
      let vps ← modifyAt vps (i : Int) (fun vp => { vp with Height := viewportContentHeight })
      let c ← index tabContents (i : Int)
      modifyAt vps (i : Int) (fun vp => L.vpSetContent vp c))
    tabViewports

/-- The local `headerHeight` of the `tea.WindowSizeMsg` case, computed after
`m.width` and `m.height` are assigned. -/
def headerHeight (L : Lib σ ν) (m : model σ ν) : Except Panic Int := do
  let sb ← renderStatusBar L m
  .ok (add64 (L.Height sb) (L.Height (renderTabs L m)))

/-- The local `viewportContentHeight` of the `tea.WindowSizeMsg` case. -/
def viewportContentHeight (height headerHeight : Int) : Int :=
  let inputAreaRenderedHeight : Int := 5
  sub64 (sub64 (sub64 (sub64 height docStyle.GetVerticalMargins) headerHeight)
    inputAreaRenderedHeight) viewportStyle.GetVerticalBorderSize

/-- The local `contentWidth` of the `tea.WindowSizeMsg` case. -/
def contentWidth (width : Int) : Int := sub64 width docStyle.GetHorizontalMargins

/-- The local `viewportWidth` of the `tea.WindowSizeMsg` case. -/
def viewportWidth (width : Int) : Int :=
  sub64 (contentWidth width) viewportStyle.GetHorizontalBorderSize

/-- The local `inputWidth` of the `tea.WindowSizeMsg` case. -/
def inputWidth (width : Int) : Int :=
  sub64 (contentWidth width) inputTextStyle.GetHorizontalBorderSize

/-- The `tea.WindowSizeMsg` case of `Update`. -/
def updateWindowSize (L : Lib σ ν) (Width Height : Int) (m : model σ ν) (cmds : List Cmd) :
    Except Panic (Step σ ν) := do
  let m := { m with width := Width }
  let m := { m with height := Height }
  let hh ← headerHeight L m
  let vh := viewportContentHeight m.height hh
  let vw := viewportWidth m.width
  let m ←
    if !m.ready then do
      let vps ← firstLayout L vw vh m.tabs m.tabContents m.tabViewports
      pure { m with tabViewports := vps, ready := true }
    else do
      let vps ← resizeAll L vw vh m.tabContents m.tabViewports
      pure { m with tabViewports := vps }
  let m := { m with inputText := { m.inputText with Width := inputWidth m.width } }
  let m :=
    if m.inputText.Width < 0 then { m with inputText := { m.inputText with Width := 0 } }
    else m
  pure { m := m, cmd := .Batch cmds, calls := [] }

/-- The method `Update(msg)`. -/
def Update (L : Lib σ ν) (m : model σ ν) (msg : Msg) : Except Panic (Step σ ν) :=
  -- m.inputText, cmd = m.inputText.Update(msg); cmds = append(cmds, cmd)
  let upd := L.tiUpdate m.inputText msg
  let m := { m with inputText := upd.1 }
  let cmds := [upd.2]
  match msg with
  | .KeyMsg k =>
    match k.type with
    | .KeyCtrlC => pure { m := m, cmd := .Quit, calls := [] }
    | .KeyEsc => pure { m := m, cmd := .Quit, calls := [] }
    | .KeyTab => updateTab L m cmds
    | .KeyEnter => updateEnter L m cmds
    | .KeyCtrlLeft => updateCtrl L true m cmds
    | .KeyCtrlRight => updateCtrl L false m cmds
    | _ => updateDefault L k m cmds
  | .WindowSizeMsg Width Height => updateWindowSize L Width Height m cmds
  | .other _ => pure { m := m, cmd := .Batch cmds, calls := [] }

/-- The method `View()`. -/
def View (L : Lib σ ν) (m : model σ ν) : Except Panic String :=
  if !m.ready || len m.tabViewports == 0 then
    .ok (L.Render docStyle "Loading...")
  else do
    let sBar ← renderStatusBar L m
    let tabs := renderTabs L m
    let vp ← index m.tabViewports m.activeTab
    let activeViewportView := L.Render viewportStyle (L.vpView vp)
    let input := L.Render inputTextStyle (L.tiView m.inputText)
    let help := L.Render helpStyle
      "Use Tab to switch, Ctrl+Left/Right to scroll horizontally, Arrows to scroll vertically. Enter in input field."
    .ok (L.Render docStyle (L.JoinVertical [sBar, tabs, activeViewportView, input, help]))

/-! ## Events, traces and states -/

/-- The next-tab event: the Tab key. -/
def tabKey : Msg := .KeyMsg { type := .KeyTab, Runes := [], Alt := false }

/-- The submit event: the Enter key. -/
def enterKey : Msg := .KeyMsg { type := .KeyEnter, Runes := [], Alt := false }

/-- The next-tab event applied `k` times through `Update`. -/
def nextTabs (L : Lib σ ν) : Nat → model σ ν → Except Panic (model σ ν)
  | 0, m => .ok m
  | k + 1, m => do
    let r ← Update L m tabKey
    nextTabs L k r.m

/-- The states reachable from `initialModel(tabs, execute)` by events through
`Update`. -/
inductive Reachable (L : Lib σ ν) (tabs : List String) (execute : ExecuteCommand) :
    model σ ν → Prop where
  | init : Reachable L tabs execute (initialModel L tabs execute)
  | step (m : model σ ν) (msg : Msg) (r : Step σ ν) :
      Reachable L tabs execute m → Update L m msg = .ok r → Reachable L tabs execute r.m

/-- A session state over the tab list `tabs`: the tab names are `tabs`, the
active index is in `[0, N)` and there is one buffer and one surface per tab. -/
structure Inv (tabs : List String) (m : model σ ν) : Prop where
  tabs_eq : m.tabs = tabs
  active_nonneg : 0 ≤ m.activeTab
  active_lt : m.activeTab < len tabs
  contents_len : m.tabContents.length = tabs.length
  viewports_len : m.tabViewports.length = tabs.length

/-- The text input leaves its text and its focus alone on the Enter key (the
key is not bound to an editing action and carries no runes). -/
def EnterKeepsInput (L : Lib σ ν) : Prop :=
  ∀ (ti : TextInput σ) (k : KeyMsg), k.type = .KeyEnter → k.Runes = [] →
    L.tiValue (L.tiUpdate ti (.KeyMsg k)).1 = L.tiValue ti ∧
    L.tiFocused (L.tiUpdate ti (.KeyMsg k)).1 = L.tiFocused ti

/-- The viewport constructor sets the width and height it is given and
setting the content leaves them unchanged. -/
def KeepsSize (L : Lib σ ν) : Prop :=
  (∀ (w h : Int), (L.vpNew w h).Width = w ∧ (L.vpNew w h).Height = h) ∧
  (∀ (vp : Viewport ν) (s : String),
    (L.vpSetContent vp s).Width = vp.Width ∧ (L.vpSetContent vp s).Height = vp.Height)

/-- The separator the submit event puts before a block (the `if` before the
append in the `tea.KeyEnter` case): a newline when the buffer is non-empty and
`strings.HasSuffix(buffer, "\n")` is false, nothing otherwise. -/
def separator (b : String) : String :=
  if b != "" && !HasSuffix b "\n" then "\n" else ""

/-- The text the submit event appends after the separator:
`output + "\n" + err.Error()` with a failure, `output + "\n"` without. -/
def block (output : String) (err : Option String) : String :=
  match err with
  | some e => output ++ "\n" ++ e
  | none => output ++ "\n"

/-! ## An executable instance of the library -/

/-- State of the text input of `simpleLib`: the text and the focus flag. -/
structure SimpleInput where
  value : String
  focus : Bool
  deriving DecidableEq, Repr

/-- State of the viewport of `simpleLib`: the content and the two offsets. -/
structure SimpleView where
  content : String
  YOffset : Int
  xOffset : Int
  deriving DecidableEq, Repr

/-- The number of lines of a text: its newlines plus one. -/
def lineCount (s : String) : Int := (s.data.count '\n' : Int) + 1

/-- The loop of `findLongestLineWidth` of the viewport over the characters of
the content: `cur` is the width of the line being read, `best` the longest
width so far; every character is one cell wide. -/
def longestLine : List Char → Nat → Nat → Nat
  | [], cur, best => max cur best
  | c :: cs, cur, best =>
    if c = '\n' then longestLine cs 0 (max cur best) else longestLine cs (cur + 1) best

/-- The field `longestLineWidth` of the viewport: the width of the longest
line of the content. -/
def longestLineWidth (s : String) : Int := (longestLine s.data 0 0 : Nat)

/-- The helper `clamp(v, low, high)` of the viewport: the bounds are swapped
when `high < low`, then `min(high, max(low, v))`. -/
def clamp (v low high : Int) : Int :=
  if high < low then min low (max high v) else min high (max low v)

/-- The method `SetXOffset(n)` of the viewport:
`m.xOffset = clamp(n, 0, m.longestLineWidth - m.Width)`. -/
def simpleSetXOffset (vp : Viewport SimpleView) (n : Int) : Viewport SimpleView :=
  { vp with core := { vp.core with
      xOffset := clamp n 0 (longestLineWidth vp.core.content - vp.Width) } }

/-- A plain text input: runes typed while focused are appended to the text,
every other message leaves it alone. -/
def simpleInputUpdate (ti : TextInput SimpleInput) (msg : Msg) : TextInput SimpleInput × Cmd :=
  if ti.core.focus then
    match msg with
    | .KeyMsg k =>
      if k.type = .KeyRunes then
        ({ ti with core := { ti.core with value := ti.core.value ++ String.mk k.Runes } }, .nil)
      else (ti, .nil)
    | _ => (ti, .nil)
  else (ti, .nil)

/-- A plain viewport: Up and Down move the vertical offset by one line. -/
def simpleViewUpdate (vp : Viewport SimpleView) (msg : Msg) : Viewport SimpleView × Cmd :=
  match msg with
  | .KeyMsg k =>
    if k.type = .KeyUp then
      ({ vp with core := { vp.core with YOffset := max 0 (vp.core.YOffset - 1) } }, .nil)
    else if k.type = .KeyDown then
      ({ vp with core := { vp.core with YOffset := vp.core.YOffset + 1 } }, .nil)
    else (vp, .nil)
  | _ => (vp, .nil)

/-- A small executable instance of `Lib`, to run the definitions on concrete
inputs: text components without styling, cursor or reflow. The horizontal
scroll methods are those of the viewport: `ScrollLeft(n)` is
`SetXOffset(xOffset - n)` and `ScrollRight(n)` is `SetXOffset(xOffset + n)`. -/
def simpleLib : Lib SimpleInput SimpleView where
  tiNew := { Placeholder := "", Width := 0, core := { value := "", focus := false } }
  tiFocus := fun ti => { ti with core := { ti.core with focus := true } }
  tiFocused := fun ti => ti.core.focus
  tiValue := fun ti => ti.core.value
  tiReset := fun ti => { ti with core := { ti.core with value := "" } }
  tiUpdate := simpleInputUpdate
  tiView := fun ti => ti.core.value
  vpZero := { content := "", YOffset := 0, xOffset := 0 }
  vpNew := fun w h =>
    { Width := w, Height := h, core := { content := "", YOffset := 0, xOffset := 0 } }
  vpSetContent := fun vp s => { vp with core := { vp.core with content := s } }
  vpGotoTop := fun vp => { vp with core := { vp.core with YOffset := 0 } }
  vpGotoBottom := fun vp =>
    { vp with core := { vp.core with YOffset := max 0 (lineCount vp.core.content - vp.Height) } }
  vpScrollLeft := fun vp n => simpleSetXOffset vp (vp.core.xOffset - n)
  vpScrollRight := fun vp n => simpleSetXOffset vp (vp.core.xOffset + n)
  vpUpdate := simpleViewUpdate
  vpView := fun vp => vp.core.content
  Render := fun _ s => s
  Height := lineCount
  JoinHorizontal := fun ss => String.join ss
  JoinVertical := fun ss => String.intercalate "\n" ss

/-- A collaborator that echoes the command and never fails. -/
def echoExecute : ExecuteCommand := fun _ command => ("echo:" ++ command, none)

/-- A collaborator that returns `"out"` with the failure `"boom"`. -/
def boomExecute : ExecuteCommand := fun _ _ => ("out", some "boom")

/-- A state over the tabs `A`, `B` of `simpleLib` with the given input text
(focused), buffers, active index and readiness. -/
def sampleModel (text : String) (buffers : List String) (active : Int) (ready : Bool)
    (execute : ExecuteCommand) : model SimpleInput SimpleView :=
  { tabs := ["A", "B"]
    activeTab := active
    tabContents := buffers
    tabViewports := List.replicate 2
      { Width := 0, Height := 0, core := { content := "", YOffset := 0, xOffset := 0 } }
    inputText := { Placeholder := "", Width := 0, core := { value := text, focus := true } }
    width := 0
    height := 0
    ready := ready
    execute := execute }

/-- The local `isArrowKey` of the `default` case of `Update`. -/
def isArrowKey (t : KeyType) : Bool :=
  t == KeyType.KeyLeft || t == KeyType.KeyRight || t == KeyType.KeyUp ||
    t == KeyType.KeyDown || t == KeyType.KeyPgUp || t == KeyType.KeyPgDown

/-- The key event that types the text `s`: a `tea.KeyRunes` message with the
runes of `s`. -/
def typeKey (s : String) : Msg := .KeyMsg { type := .KeyRunes, Runes := s.data, Alt := false }

/-- The states reachable from `initialModel(tabs, execute)` by events through
`Update` none of which is the Enter key. -/
inductive ReachableNoSubmit (L : Lib σ ν) (tabs : List String) (execute : ExecuteCommand) :
    model σ ν → Prop where
  | init : ReachableNoSubmit L tabs execute (initialModel L tabs execute)
  | step (m : model σ ν) (msg : Msg) (r : Step σ ν) :
      ReachableNoSubmit L tabs execute m →
      (∀ k : KeyMsg, msg = .KeyMsg k → k.type ≠ .KeyEnter) →
      Update L m msg = .ok r → ReachableNoSubmit L tabs execute r.m

/-! ## A text input with a cursor -/

/-- State of the text input of `cursorLib`: the text, the focus flag and the
cursor position. -/
structure CursorInput where
  value : String
  focus : Bool
  pos : Nat
  deriving DecidableEq, Repr

/-- A text input with a cursor: while focused, Left and Right move the cursor
by one character inside the text and typed runes are appended, the cursor
going to the end. -/
def cursorInputUpdate (ti : TextInput CursorInput) (msg : Msg) : TextInput CursorInput × Cmd :=
  if ti.core.focus then
    match msg with
    | .KeyMsg k =>
      if k.type = .KeyLeft then
        ({ ti with core := { ti.core with pos := ti.core.pos - 1 } }, .nil)
      else if k.type = .KeyRight then
        ({ ti with core := { ti.core with pos := min (ti.core.pos + 1) ti.core.value.length } },
          .nil)
      else if k.type = .KeyRunes then
        ({ ti with core := { ti.core with
            value := ti.core.value ++ String.mk k.Runes
            pos := (ti.core.value ++ String.mk k.Runes).length } }, .nil)
      else (ti, .nil)
    | _ => (ti, .nil)
  else (ti, .nil)

/-- The instance `simpleLib` with its text input replaced by one that has a
cursor. -/
def cursorLib : Lib CursorInput SimpleView where
  tiNew := { Placeholder := "", Width := 0, core := { value := "", focus := false, pos := 0 } }
  tiFocus := fun ti => { ti with core := { ti.core with focus := true } }
  tiFocused := fun ti => ti.core.focus
  tiValue := fun ti => ti.core.value
  tiReset := fun ti => { ti with core := { ti.core with value := "", pos := 0 } }
  tiUpdate := cursorInputUpdate
  tiView := fun ti => ti.core.value
  vpZero := simpleLib.vpZero
  vpNew := simpleLib.vpNew
  vpSetContent := simpleLib.vpSetContent
  vpGotoTop := simpleLib.vpGotoTop
  vpGotoBottom := simpleLib.vpGotoBottom
  vpScrollLeft := simpleLib.vpScrollLeft
  vpScrollRight := simpleLib.vpScrollRight
  vpUpdate := simpleLib.vpUpdate
  vpView := simpleLib.vpView
  Render := simpleLib.Render
  Height := simpleLib.Height
  JoinHorizontal := simpleLib.JoinHorizontal
  JoinVertical := simpleLib.JoinVertical

/-- A ready state over the tabs `A`, `B` of `cursorLib` with the given input
text (focused) and cursor position, empty buffers and active index 0. -/
def cursorModel (text : String) (pos : Nat) : model CursorInput SimpleView :=
  { tabs := ["A", "B"]
    activeTab := 0
    tabContents := ["", ""]
    tabViewports := List.replicate 2
      { Width := 0, Height := 0, core := { content := "", YOffset := 0, xOffset := 0 } }
    inputText := { Placeholder := "", Width := 0, core := { value := text, focus := true, pos := pos } }
    width := 0
    height := 0
    ready := true
    execute := echoExecute }

theorem wrap64_of_range (x : Int) (h1 : -9223372036854775808 ≤ x)
    (h2 : x < 9223372036854775808) : wrap64 x = x := by
  unfold wrap64
  omega

theorem index_nat {α : Type} (xs : List α) (k : Nat) (x : α) (h : xs[k]? = some x) :
    index xs (k : Int) = .ok x := by
  unfold index
  simp [h]

theorem setIndex_nat {α : Type} (xs : List α) (k : Nat) (v : α) (h : k < xs.length) :
    setIndex xs (k : Int) v = .ok (xs.set k v) := by
  unfold setIndex
  simp [h]

theorem modifyAt_nat {α : Type} (xs : List α) (k : Nat) (f : α → α) (x : α)
    (h : xs[k]? = some x) : modifyAt xs (k : Int) f = .ok (xs.set k (f x)) := by
  have hk : k < xs.length := by
    by_contra hc
    have := List.getElem?_eq_none (Nat.le_of_not_lt hc)
    simp [this] at h
  unfold modifyAt
  rw [index_nat xs k x h]
  exact setIndex_nat xs k (f x) hk

theorem index_int {α : Type} (xs : List α) (i : Int) (x : α) (h0 : 0 ≤ i)
    (h : xs[i.toNat]? = some x) : index xs i = .ok x := by
  have := index_nat xs i.toNat x h
  rwa [Int.toNat_of_nonneg h0] at this

theorem setIndex_int {α : Type} (xs : List α) (i : Int) (v : α) (h0 : 0 ≤ i)
    (h : i.toNat < xs.length) : setIndex xs i v = .ok (xs.set i.toNat v) := by
  have := setIndex_nat xs i.toNat v h
  rwa [Int.toNat_of_nonneg h0] at this

theorem modifyAt_int {α : Type} (xs : List α) (i : Int) (f : α → α) (x : α) (h0 : 0 ≤ i)
    (h : xs[i.toNat]? = some x) : modifyAt xs i f = .ok (xs.set i.toNat (f x)) := by
  have := modifyAt_nat xs i.toNat f x h
  rwa [Int.toNat_of_nonneg h0] at this

theorem rem64_next (a n : Int) (h0 : 0 ≤ a) (h1 : a < n) (h2 : n < 9223372036854775808) :
    rem64 (add64 a 1) n = .ok ((a + 1) % n) := by
  have hn : n ≠ 0 := by omega
  have hw : add64 a 1 = a + 1 := wrap64_of_range _ (by omega) (by omega)
  have hm : Int.tmod (a + 1) n = (a + 1) % n := Int.tmod_eq_emod (by omega) (by omega)
  have hlo : 0 ≤ (a + 1) % n := Int.emod_nonneg _ hn
  have hhi : (a + 1) % n < n := Int.emod_lt_of_pos _ (by omega)
  unfold rem64
  rw [if_neg hn, hw, hm, wrap64_of_range _ (by omega) (by omega)]

theorem getElem?_of_lt {α : Type} (xs : List α) (k : Nat) (h : k < xs.length) :
    ∃ x, xs[k]? = some x := ⟨xs[k], List.getElem?_eq_getElem h⟩

/-- In a session state the active index, as a natural number, is below `N`. -/
theorem Inv.toNat_lt {tabs : List String} {m : model σ ν} (h : Inv tabs m) :
    m.activeTab.toNat < tabs.length :=
  (Int.toNat_lt h.active_nonneg).2 h.active_lt

/-- The `tea.KeyTab` case on a session state. -/
theorem updateTab_spec (L : Lib σ ν) {tabs : List String} {m : model σ ν} (cmds : List Cmd)
    (h : Inv tabs m) (hB : len tabs < 9223372036854775808) :
    ∃ r, updateTab L m cmds = .ok r ∧ Inv tabs r.m ∧
      r.m.activeTab = (m.activeTab + 1) % len tabs ∧
      r.m.tabContents = m.tabContents ∧ r.m.ready = m.ready ∧ r.calls = [] := by
  have hrem := rem64_next m.activeTab (len tabs) h.active_nonneg h.active_lt hB
  have hpos : 0 < len tabs := lt_of_le_of_lt h.active_nonneg h.active_lt
  have hn : len tabs ≠ 0 := by omega
  have hlo : 0 ≤ (m.activeTab + 1) % len tabs := Int.emod_nonneg _ hn
  have hhi : (m.activeTab + 1) % len tabs < len tabs := Int.emod_lt_of_pos _ (by omega)
  have hk : ((m.activeTab + 1) % len tabs).toNat < tabs.length := (Int.toNat_lt hlo).2 hhi
  obtain ⟨c, hc⟩ := getElem?_of_lt m.tabContents _ (by rw [h.contents_len]; exact hk)
  obtain ⟨vp, hvp⟩ := getElem?_of_lt m.tabViewports _ (by rw [h.viewports_len]; exact hk)
  unfold updateTab
  rw [h.tabs_eq, hrem]
  cases hr : m.ready
  · simp [hr, bind, Except.bind, pure, Except.pure]
    exact ⟨rfl, hlo, hhi, h.contents_len, h.viewports_len⟩
  · simp [hr, bind, Except.bind, pure, Except.pure, index_int _ _ c hlo hc,
      modifyAt_int _ _ _ vp hlo hvp]
    exact ⟨rfl, hlo, hhi, h.contents_len, by simp [h.viewports_len]⟩

/-- The `"clear"` branch of the `tea.KeyEnter` case on a session state. -/
theorem updateEnter_clear (L : Lib σ ν) {tabs : List String} {m : model σ ν} (cmds : List Cmd)
    (h : Inv tabs m) (hf : L.tiFocused m.inputText = true)
    (hv : L.tiValue m.inputText = "clear") (vp : Viewport ν)
    (hvp : m.tabViewports[m.activeTab.toNat]? = some vp) :
    updateEnter L m cmds = .ok
      { m := { m with
          tabContents := m.tabContents.set m.activeTab.toNat ""
          tabViewports := m.tabViewports.set m.activeTab.toNat
            (L.vpGotoTop (L.vpSetContent vp ""))
          inputText := L.tiFocus (L.tiReset m.inputText) }
        cmd := .nil
        calls := [] } := by
  have h0 := h.active_nonneg
  have hlt := h.toNat_lt
  have hc : m.activeTab.toNat < m.tabContents.length := by rw [h.contents_len]; exact hlt
  have hvl : m.activeTab.toNat < m.tabViewports.length := by rw [h.viewports_len]; exact hlt
  have hget : (m.tabContents.set m.activeTab.toNat "")[m.activeTab.toNat]? = some "" := by
    simp [List.getElem?_set, hc]
  have hget2 : (m.tabViewports.set m.activeTab.toNat (L.vpSetContent vp ""))[m.activeTab.toNat]?
      = some (L.vpSetContent vp "") := by
    simp [List.getElem?_set, hvl]
  unfold updateEnter
  simp [hf, hv, bind, Except.bind, pure, Except.pure, setIndex_int _ _ _ h0 hc,
    index_int _ _ _ h0 hget, modifyAt_int _ _ _ vp h0 hvp, modifyAt_int _ _ _ _ h0 hget2]

/-- The command branch of the `tea.KeyEnter` case on a session state. -/
theorem updateEnter_run (L : Lib σ ν) {tabs : List String} {m : model σ ν} (cmds : List Cmd)
    (h : Inv tabs m) (hf : L.tiFocused m.inputText = true)
    (hne : L.tiValue m.inputText ≠ "") (hnc : L.tiValue m.inputText ≠ "clear")
    (tab b : String) (vp : Viewport ν)
    (htab : m.tabs[m.activeTab.toNat]? = some tab)
    (hb : m.tabContents[m.activeTab.toNat]? = some b)
    (hvp : m.tabViewports[m.activeTab.toNat]? = some vp) :
    updateEnter L m cmds = .ok
      { m := { m with
          tabContents := m.tabContents.set m.activeTab.toNat
            (b ++ separator b ++
              block (m.execute tab (L.tiValue m.inputText)).1 (m.execute tab (L.tiValue m.inputText)).2)
          tabViewports := m.tabViewports.set m.activeTab.toNat
            (L.vpGotoBottom (L.vpSetContent vp
              (b ++ separator b ++
                block (m.execute tab (L.tiValue m.inputText)).1
                  (m.execute tab (L.tiValue m.inputText)).2)))
          inputText := L.tiFocus (L.tiReset m.inputText) }
        cmd := .Batch (cmds ++ [Cmd.Blink])
        calls := [(tab, L.tiValue m.inputText)] } := by
  have h0 := h.active_nonneg
  have hlt := h.toNat_lt
  have hc : m.activeTab.toNat < m.tabContents.length := by rw [h.contents_len]; exact hlt
  have hvl : m.activeTab.toNat < m.tabViewports.length := by rw [h.viewports_len]; exact hlt
  have hset : ∀ (xs : List String) (x : String), xs.length = m.tabContents.length →
      (xs.set m.activeTab.toNat x)[m.activeTab.toNat]? = some x := by
    intro xs x hx
    simp [List.getElem?_set, hx, hc]
  have hsetv : ∀ (x : Viewport ν),
      (m.tabViewports.set m.activeTab.toNat x)[m.activeTab.toNat]? = some x := by
    intro x
    simp [List.getElem?_set, hvl]
  unfold updateEnter
  rcases hex : m.execute tab (L.tiValue m.inputText) with ⟨output, err⟩
  by_cases hsep : (b != "" && !HasSuffix b "\n") = true
  · have hs : separator b = "\n" := by unfold separator; rw [if_pos hsep]
    cases err with
    | none =>
      simp [hf, hne, hnc, hex, hsep, hs, block, bind, Except.bind, pure, Except.pure,
        index_int _ _ _ h0 htab, index_int _ _ _ h0 hb, modifyAt_int _ _ _ b h0 hb,
        modifyAt_int _ _ _ _ h0 (hset m.tabContents (b ++ "\n") rfl),
        index_int _ _ _ h0 (hset m.tabContents _ rfl),
        modifyAt_int _ _ _ vp h0 hvp, modifyAt_int _ _ _ _ h0 (hsetv _), String.append_assoc]
    | some e =>
      simp [hf, hne, hnc, hex, hsep, hs, block, bind, Except.bind, pure, Except.pure,
        index_int _ _ _ h0 htab, index_int _ _ _ h0 hb, modifyAt_int _ _ _ b h0 hb,
        modifyAt_int _ _ _ _ h0 (hset m.tabContents (b ++ "\n") rfl),
        index_int _ _ _ h0 (hset m.tabContents _ rfl),
        modifyAt_int _ _ _ vp h0 hvp, modifyAt_int _ _ _ _ h0 (hsetv _), String.append_assoc]
  · have hs : separator b = "" := by unfold separator; rw [if_neg hsep]
    cases err with
    | none =>
      simp [hf, hne, hnc, hex, hsep, hs, block, bind, Except.bind, pure, Except.pure,
        index_int _ _ _ h0 htab, index_int _ _ _ h0 hb, modifyAt_int _ _ _ b h0 hb,
        index_int _ _ _ h0 (hset m.tabContents _ rfl),
        modifyAt_int _ _ _ vp h0 hvp, modifyAt_int _ _ _ _ h0 (hsetv _), String.append_assoc]
    | some e =>
      simp [hf, hne, hnc, hex, hsep, hs, block, bind, Except.bind, pure, Except.pure,
        index_int _ _ _ h0 htab, index_int _ _ _ h0 hb, modifyAt_int _ _ _ b h0 hb,
        index_int _ _ _ h0 (hset m.tabContents _ rfl),
        modifyAt_int _ _ _ vp h0 hvp, modifyAt_int _ _ _ _ h0 (hsetv _), String.append_assoc]

/-- A loop over `range n` that keeps an invariant never panics and ends in the
invariant at `n`. -/
theorem foldlM_range_inv {β : Type} (step : β → Nat → Except Panic β) (P : Nat → β → Prop)
    (n : Nat) (init : β) (h0 : P 0 init)
    (hstep : ∀ k b, k < n → P k b → ∃ b', step b k = .ok b' ∧ P (k + 1) b') :
    ∃ b, (List.range n).foldlM step init = .ok b ∧ P n b := by
  have key : ∀ j, j ≤ n → ∃ b, (List.range j).foldlM step init = .ok b ∧ P j b := by
    intro j
    induction j with
    | zero => intro _; exact ⟨init, rfl, h0⟩
    | succ j ih =>
      intro hj
      obtain ⟨b, hb, hP⟩ := ih (Nat.le_of_succ_le hj)
      obtain ⟨b', hb', hP'⟩ := hstep j b hj hP
      refine ⟨b', ?_, hP'⟩
      rw [List.range_succ, List.foldlM_append, hb]
      simp [bind, Except.bind, hb', pure, Except.pure]
  exact key n (Nat.le_refl n)

/-- The first-layout loop on a session state: one new surface per tab, of the
given size, with the tab's buffer set as content. -/
theorem firstLayout_spec (L : Lib σ ν) (vw vh : Int) (tabs tc : List String)
    (vps : List (Viewport ν)) (hc : tc.length = tabs.length) (hv : vps.length = tabs.length) :
    ∃ out, firstLayout L vw vh tabs tc vps = .ok out ∧ out.length = tabs.length ∧
      ∀ (i : Nat) (c : String), tc[i]? = some c → out[i]? = some (L.vpSetContent (L.vpNew vw vh) c) := by
  unfold firstLayout
  obtain ⟨out, hout, hlen, hP⟩ := foldlM_range_inv
    (fun vps i => do
      let vp := L.vpNew vw vh
      let c ← index tc (i : Int)
      let vp := L.vpSetContent vp c
      setIndex vps (i : Int) vp)
    (fun k (l : List (Viewport ν)) => l.length = tabs.length ∧
      ∀ (i : Nat) (c : String), i < k → tc[i]? = some c → l[i]? = some (L.vpSetContent (L.vpNew vw vh) c))
    tabs.length vps ⟨hv, fun i c hi _ => absurd hi (Nat.not_lt_zero i)⟩
    (by
      intro k l hk ⟨hl, hP⟩
      obtain ⟨c, hck⟩ := getElem?_of_lt tc k (by rw [hc]; exact hk)
      refine ⟨l.set k (L.vpSetContent (L.vpNew vw vh) c), ?_, by simp [hl], ?_⟩
      · simp [bind, Except.bind, index_nat tc k c hck, setIndex_nat l k _ (by rw [hl]; exact hk)]
      · intro i c' hi hci
        rw [List.getElem?_set]
        by_cases hik : k = i
        · subst hik
          rw [hck] at hci
          simp [hl, hk] at hci ⊢
          rw [hci]
        · rw [if_neg hik]
          exact hP i c' (by omega) hci)
  refine ⟨out, hout, hlen, fun i c hci => hP i c ?_ hci⟩
  by_contra hi
  rw [List.getElem?_eq_none (by rw [hc]; exact Nat.le_of_not_lt hi)] at hci
  exact Option.noConfusion hci

/-- The resize loop on a session state: every surface keeps its place, gets
the new width and height and has its tab's buffer set as content. -/
theorem resizeAll_spec (L : Lib σ ν) (vw vh : Int) (tc : List String)
    (vps : List (Viewport ν)) (hc : tc.length = vps.length) :
    ∃ out, resizeAll L vw vh tc vps = .ok out ∧ out.length = vps.length ∧
      ∀ (i : Nat) (vp : Viewport ν) (c : String), vps[i]? = some vp → tc[i]? = some c →
        out[i]? = some (L.vpSetContent { vp with Width := vw, Height := vh } c) := by
  unfold resizeAll
  obtain ⟨out, hout, hlen, hP, _⟩ := foldlM_range_inv
    (fun vps i => do
      let vps ← modifyAt vps (i : Int) (fun vp => { vp with Width := vw })
      let vps ← modifyAt vps (i : Int) (fun vp => { vp with Height := vh })
      let c ← index tc (i : Int)
      modifyAt vps (i : Int) (fun vp => L.vpSetContent vp c))
    (fun k (l : List (Viewport ν)) => l.length = vps.length ∧
      (∀ (i : Nat) (vp : Viewport ν) (c : String), i < k → vps[i]? = some vp → tc[i]? = some c →
        l[i]? = some (L.vpSetContent { vp with Width := vw, Height := vh } c)) ∧
      (∀ (i : Nat), k ≤ i → l[i]? = vps[i]?))
    vps.length vps ⟨rfl, fun i _ _ hi _ _ => absurd hi (Nat.not_lt_zero i), fun _ _ => rfl⟩
    (by
      intro k l hk ⟨hl, hP, hQ⟩
      obtain ⟨c, hck⟩ := getElem?_of_lt tc k (by rw [hc]; exact hk)
      obtain ⟨vp, hvk⟩ := getElem?_of_lt vps k hk
      have hlk : l[k]? = some vp := by rw [hQ k (Nat.le_refl k)]; exact hvk
      have hkl : k < l.length := by rw [hl]; exact hk
      have hs : ∀ (xs : List (Viewport ν)) (x : Viewport ν), xs.length = l.length →
          (xs.set k x)[k]? = some x := by
        intro xs x hx
        simp [List.getElem?_set, hx, hkl]
      refine ⟨l.set k (L.vpSetContent { vp with Width := vw, Height := vh } c), ?_,
        by simp [hl], ?_, ?_⟩
      · simp [bind, Except.bind, index_nat tc k c hck, modifyAt_nat l k _ vp hlk,
          modifyAt_nat _ k _ _ (hs l _ rfl), modifyAt_nat _ k _ _ (hs (l.set k _) _ (by simp))]
      · intro i vp' c' hi hvi hci
        rw [List.getElem?_set]
        by_cases hik : k = i
        · subst hik
          rw [hck] at hci
          rw [hvk] at hvi
          simp [hkl] at hci hvi ⊢
          rw [hci, hvi]
        · rw [if_neg hik]
          exact hP i vp' c' (by omega) hvi hci
      · intro i hi
        rw [List.getElem?_set, if_neg (by omega)]
        exact hQ i (by omega))
  refine ⟨out, hout, hlen, fun i vp c hvi hci => hP i vp c ?_ hvi hci⟩
  by_contra hi
  rw [List.getElem?_eq_none (Nat.le_of_not_lt hi)] at hvi
  exact Option.noConfusion hvi

/-- Replacing the text input keeps a session state. -/
theorem Inv.withInput {tabs : List String} {m : model σ ν} (h : Inv tabs m)
    (ti : TextInput σ) : Inv tabs { m with inputText := ti } :=
  ⟨h.tabs_eq, h.active_nonneg, h.active_lt, h.contents_len, h.viewports_len⟩

/-- The horizontal scroll cases on a session state. -/
theorem updateCtrl_spec (L : Lib σ ν) {tabs : List String} {m : model σ ν} (left : Bool)
    (cmds : List Cmd) (h : Inv tabs m) :
    ∃ r, updateCtrl L left m cmds = .ok r ∧ Inv tabs r.m ∧
      r.m.activeTab = m.activeTab ∧ r.m.tabContents = m.tabContents ∧
      r.m.ready = m.ready ∧ r.calls = [] := by
  obtain ⟨vp, hvp⟩ := getElem?_of_lt m.tabViewports m.activeTab.toNat
    (by rw [h.viewports_len]; exact h.toNat_lt)
  unfold updateCtrl
  split
  · simp [bind, Except.bind, pure, Except.pure, modifyAt_int _ _ _ vp h.active_nonneg hvp]
    exact ⟨h.tabs_eq, h.active_nonneg, h.active_lt, h.contents_len, by simp [h.viewports_len]⟩
  · exact ⟨_, rfl, h, rfl, rfl, rfl, rfl⟩

/-- The `default` key case on a session state. -/
theorem updateDefault_spec (L : Lib σ ν) {tabs : List String} {m : model σ ν} (k : KeyMsg)
    (cmds : List Cmd) (h : Inv tabs m) :
    ∃ r, updateDefault L k m cmds = .ok r ∧ Inv tabs r.m ∧
      r.m.activeTab = m.activeTab ∧ r.m.tabContents = m.tabContents ∧
      r.m.ready = m.ready ∧ r.calls = [] := by
  obtain ⟨vp, hvp⟩ := getElem?_of_lt m.tabViewports m.activeTab.toNat
    (by rw [h.viewports_len]; exact h.toNat_lt)
  have hvl : m.activeTab.toNat < m.tabViewports.length := by
    rw [h.viewports_len]; exact h.toNat_lt
  unfold updateDefault
  split
  · dsimp only
    split
    · simp [bind, Except.bind, pure, Except.pure, index_int _ _ vp h.active_nonneg hvp,
        setIndex_int _ _ _ h.active_nonneg hvl]
      exact ⟨h.tabs_eq, h.active_nonneg, h.active_lt, h.contents_len, by simp [h.viewports_len]⟩
    · exact ⟨_, rfl, h, rfl, rfl, rfl, rfl⟩
  · exact ⟨_, rfl, h, rfl, rfl, rfl, rfl⟩

/-- On a session state the header is rendered without a panic. -/
theorem headerHeight_ok (L : Lib σ ν) {tabs : List String} {m : model σ ν} (h : Inv tabs m) :
    ∃ hh, headerHeight L m = .ok hh := by
  obtain ⟨t, ht⟩ := getElem?_of_lt m.tabs m.activeTab.toNat
    (by rw [h.tabs_eq]; exact h.toNat_lt)
  unfold headerHeight renderStatusBar
  cases hr : m.ready
  · simp [bind, Except.bind]
  · simp [bind, Except.bind, index_int _ _ t h.active_nonneg ht]

/-- The `tea.WindowSizeMsg` case on a session state. -/
theorem updateWindowSize_spec (L : Lib σ ν) {tabs : List String} {m : model σ ν}
    (W H : Int) (cmds : List Cmd) (h : Inv tabs m) :
    ∃ hh, headerHeight L { m with width := W, height := H } = .ok hh ∧
      ∃ r, updateWindowSize L W H m cmds = .ok r ∧ Inv tabs r.m ∧
      r.m.activeTab = m.activeTab ∧ r.m.tabContents = m.tabContents ∧
      r.m.ready = true ∧ r.calls = [] ∧ r.m.width = W ∧ r.m.height = H ∧
      r.m.inputText = { m.inputText with Width := max 0 (inputWidth W) } ∧
      (m.ready = false → ∀ (i : Nat) (c : String), m.tabContents[i]? = some c →
        r.m.tabViewports[i]? =
          some (L.vpSetContent (L.vpNew (viewportWidth W) (viewportContentHeight H hh)) c)) ∧
      (m.ready = true → ∀ (i : Nat) (vp : Viewport ν) (c : String),
        m.tabViewports[i]? = some vp → m.tabContents[i]? = some c →
        r.m.tabViewports[i]? = some (L.vpSetContent
          { vp with Width := viewportWidth W, Height := viewportContentHeight H hh } c)) := by
  have h' : Inv tabs { m with width := W, height := H } :=
    ⟨h.tabs_eq, h.active_nonneg, h.active_lt, h.contents_len, h.viewports_len⟩
  obtain ⟨hh, hhh⟩ := headerHeight_ok L h'
  unfold updateWindowSize
  have hmax : (inputWidth W < 0 → max 0 (inputWidth W) = 0) ∧
      (¬ inputWidth W < 0 → max 0 (inputWidth W) = inputWidth W) :=
    ⟨fun hn => max_eq_left (by omega), fun hn => max_eq_right (by omega)⟩
  rcases Bool.eq_false_or_eq_true m.ready with hr | hr
  · obtain ⟨out, hout, hlen, hP⟩ := resizeAll_spec L (viewportWidth W)
      (viewportContentHeight H hh) m.tabContents m.tabViewports
      (by rw [h.contents_len, h.viewports_len])
    refine ⟨hh, hhh, ?_⟩
    have hhh2 := hhh
    rw [hr] at hhh2
    have hI : ∀ (m2 : model σ ν), m2.tabs = m.tabs → m2.activeTab = m.activeTab →
        m2.tabContents = m.tabContents → m2.tabViewports = out → Inv tabs m2 := by
      intro m2 h1 h2 h3 h4
      exact ⟨h1.trans h.tabs_eq, h2 ▸ h.active_nonneg, h2 ▸ h.active_lt,
        h3 ▸ h.contents_len, by rw [h4, hlen, h.viewports_len]⟩
    by_cases hneg : inputWidth W < 0
    · simp [hhh2, hr, hout, hneg, hmax.1 hneg, bind, Except.bind, pure, Except.pure]
      exact ⟨hI _ rfl rfl rfl rfl, hP⟩
    · simp [hhh2, hr, hout, hneg, hmax.2 hneg, bind, Except.bind, pure, Except.pure]
      exact ⟨hI _ rfl rfl rfl rfl, hP⟩
  · obtain ⟨out, hout, hlen, hP⟩ := firstLayout_spec L (viewportWidth W)
      (viewportContentHeight H hh) m.tabs m.tabContents m.tabViewports
      (by rw [h.contents_len, h.tabs_eq]) (by rw [h.viewports_len, h.tabs_eq])
    refine ⟨hh, hhh, ?_⟩
    have hhh2 := hhh
    rw [hr] at hhh2
    have hI : ∀ (m2 : model σ ν), m2.tabs = m.tabs → m2.activeTab = m.activeTab →
        m2.tabContents = m.tabContents → m2.tabViewports = out → Inv tabs m2 := by
      intro m2 h1 h2 h3 h4
      exact ⟨h1.trans h.tabs_eq, h2 ▸ h.active_nonneg, h2 ▸ h.active_lt,
        h3 ▸ h.contents_len, by rw [h4, hlen, h.tabs_eq]⟩
    by_cases hneg : inputWidth W < 0
    · simp [hhh2, hr, hout, hneg, hmax.1 hneg, bind, Except.bind, pure, Except.pure]
      exact ⟨hI _ rfl rfl rfl rfl, hP⟩
    · simp [hhh2, hr, hout, hneg, hmax.2 hneg, bind, Except.bind, pure, Except.pure]
      exact ⟨hI _ rfl rfl rfl rfl, hP⟩

/-- The Tab key is handled by the `tea.KeyTab` case. -/
theorem Update_tab (L : Lib σ ν) (m : model σ ν) (k : KeyMsg) (hk : k.type = .KeyTab) :
    Update L m (.KeyMsg k) =
      updateTab L { m with inputText := (L.tiUpdate m.inputText (.KeyMsg k)).1 }
        [(L.tiUpdate m.inputText (.KeyMsg k)).2] := by
  unfold Update
  simp only [hk]

/-- The Enter key is handled by the `tea.KeyEnter` case. -/
theorem Update_enter (L : Lib σ ν) (m : model σ ν) (k : KeyMsg) (hk : k.type = .KeyEnter) :
    Update L m (.KeyMsg k) =
      updateEnter L { m with inputText := (L.tiUpdate m.inputText (.KeyMsg k)).1 }
        [(L.tiUpdate m.inputText (.KeyMsg k)).2] := by
  unfold Update
  simp only [hk]

/-- The `tea.KeyEnter` case on a session state never panics and keeps the
session state, the active index and the buffers of the other tabs. -/
theorem updateEnter_frame (L : Lib σ ν) {tabs : List String} {m : model σ ν} (cmds : List Cmd)
    (h : Inv tabs m) :
    ∃ r, updateEnter L m cmds = .ok r ∧ Inv tabs r.m ∧ r.m.activeTab = m.activeTab ∧
      r.m.ready = m.ready ∧
      ∀ (i : Nat), i ≠ m.activeTab.toNat → r.m.tabContents[i]? = m.tabContents[i]? := by
  obtain ⟨tab, htab⟩ := getElem?_of_lt m.tabs m.activeTab.toNat
    (by rw [h.tabs_eq]; exact h.toNat_lt)
  obtain ⟨b, hb⟩ := getElem?_of_lt m.tabContents m.activeTab.toNat
    (by rw [h.contents_len]; exact h.toNat_lt)
  obtain ⟨vp, hvp⟩ := getElem?_of_lt m.tabViewports m.activeTab.toNat
    (by rw [h.viewports_len]; exact h.toNat_lt)
  have hI : ∀ (m2 : model σ ν) (x : String) (y : Viewport ν), m2.tabs = m.tabs →
      m2.activeTab = m.activeTab → m2.tabContents = m.tabContents.set m.activeTab.toNat x →
      m2.tabViewports = m.tabViewports.set m.activeTab.toNat y → Inv tabs m2 := by
    intro m2 x y h1 h2 h3 h4
    exact ⟨h1.trans h.tabs_eq, h2 ▸ h.active_nonneg, h2 ▸ h.active_lt,
      by rw [h3, List.length_set, h.contents_len], by rw [h4, List.length_set, h.viewports_len]⟩
  by_cases hf : L.tiFocused m.inputText = true
  · by_cases hne : L.tiValue m.inputText = ""
    · refine ⟨⟨m, .Batch cmds, []⟩, ?_, h, rfl, rfl, fun _ _ => rfl⟩
      unfold updateEnter
      simp [hf, hne]
      rfl
    · by_cases hc : L.tiValue m.inputText = "clear"
      · refine ⟨_, updateEnter_clear L cmds h hf hc vp hvp, hI _ _ _ rfl rfl rfl rfl, rfl, rfl, ?_⟩
        intro i hi
        exact List.getElem?_set_ne (Ne.symm hi)
      · refine ⟨_, updateEnter_run L cmds h hf hne hc tab b vp htab hb hvp,
          hI _ _ _ rfl rfl rfl rfl, rfl, rfl, ?_⟩
        intro i hi
        exact List.getElem?_set_ne (Ne.symm hi)
  · refine ⟨⟨m, .Batch cmds, []⟩, ?_, h, rfl, rfl, fun _ _ => rfl⟩
    unfold updateEnter
    simp [hf]
    rfl

/-- Every event on a session state is handled without a panic and leaves a
session state over the same tabs. -/
theorem Update_inv (L : Lib σ ν) {tabs : List String} {m : model σ ν} (msg : Msg)
    (h : Inv tabs m) (hB : len tabs < 9223372036854775808) :
    ∃ r, Update L m msg = .ok r ∧ Inv tabs r.m := by
  have h' := h.withInput (L.tiUpdate m.inputText msg).1
  cases msg with
  | KeyMsg k =>
    obtain ⟨r, hr, hI, _⟩ := updateTab_spec L [(L.tiUpdate m.inputText (.KeyMsg k)).2] h' hB
    obtain ⟨r1, hr1, hI1, _⟩ := updateCtrl_spec L true [(L.tiUpdate m.inputText (.KeyMsg k)).2] h'
    obtain ⟨r2, hr2, hI2, _⟩ := updateCtrl_spec L false [(L.tiUpdate m.inputText (.KeyMsg k)).2] h'
    obtain ⟨r3, hr3, hI3, _⟩ := updateDefault_spec L k [(L.tiUpdate m.inputText (.KeyMsg k)).2] h'
    obtain ⟨r4, hr4, hI4, _⟩ := updateEnter_frame L [(L.tiUpdate m.inputText (.KeyMsg k)).2] h'
    unfold Update
    cases hk : k.type <;> simp only [hk] at * <;>
      first
      | exact ⟨_, rfl, h'⟩
      | exact ⟨r, hr, hI⟩
      | exact ⟨r1, hr1, hI1⟩
      | exact ⟨r2, hr2, hI2⟩
      | exact ⟨r3, hr3, hI3⟩
      | exact ⟨r4, hr4, hI4⟩
  | WindowSizeMsg W H =>
    obtain ⟨hh, _, r, hr, hI, _⟩ := updateWindowSize_spec L W H
      [(L.tiUpdate m.inputText (.WindowSizeMsg W H)).2] h'
    exact ⟨r, hr, hI⟩
  | other t => exact ⟨_, rfl, h'⟩

/-- Assigning elements in a loop keeps the length of a slice. -/
theorem length_foldl_set {α : Type} (v : α) (is : List Nat) (xs : List α) :
    (is.foldl (fun tc i => tc.set i v) xs).length = xs.length := by
  induction is generalizing xs with
  | nil => rfl
  | cons i is ih => rw [List.foldl_cons, ih, List.length_set]

/-- The model built by `initialModel` from a non-empty tab list is a session
state. -/
theorem initialModel_inv (L : Lib σ ν) (tabs : List String) (execute : ExecuteCommand)
    (hN : 1 ≤ tabs.length) : Inv tabs (initialModel L tabs execute) := by
  refine ⟨rfl, le_refl _, ?_, ?_, ?_⟩
  · show (0 : Int) < len tabs
    unfold len
    omega
  · show List.length (List.foldl _ _ _) = tabs.length
    rw [length_foldl_set, List.length_replicate]
  · show List.length (List.replicate _ _) = tabs.length
    rw [List.length_replicate]

/-- Every reachable state is a session state. -/
theorem Reachable.inv {L : Lib σ ν} {tabs : List String} {execute : ExecuteCommand}
    {m : model σ ν} (hN : 1 ≤ tabs.length) (hB : len tabs < 9223372036854775808)
    (h : Reachable L tabs execute m) : Inv tabs m := by
  induction h with
  | init => exact initialModel_inv L tabs execute hN
  | step m msg r _ hr ih =>
    obtain ⟨r2, hr2, hI⟩ := Update_inv L msg ih hB
    rw [hr] at hr2
    cases hr2
    exact hI

/-- The next-tab event applied `k` times to a session state. -/
theorem nextTabs_spec (L : Lib σ ν) {tabs : List String} (hB : len tabs < 9223372036854775808)
    (k : Nat) : ∀ {m : model σ ν}, Inv tabs m →
      ∃ mk, nextTabs L k m = .ok mk ∧ Inv tabs mk ∧
        mk.activeTab = (m.activeTab + (k : Int)) % len tabs := by
  induction k with
  | zero =>
    intro m h
    refine ⟨m, rfl, h, ?_⟩
    rw [Nat.cast_zero, add_zero, Int.emod_eq_of_lt h.active_nonneg h.active_lt]
  | succ k ih =>
    intro m h
    obtain ⟨r, hr, hI, ha, _⟩ := updateTab_spec L [(L.tiUpdate m.inputText tabKey).2]
      (h.withInput (L.tiUpdate m.inputText tabKey).1) hB
    obtain ⟨mk, hmk, hIk, hak⟩ := ih hI
    refine ⟨mk, ?_, hIk, ?_⟩
    · have hU : Update L m tabKey = .ok r := (Update_tab L m _ rfl).trans hr
      unfold nextTabs
      rw [hU]
      exact hmk
    · rw [hak, ha, Int.emod_add_emod]
      congr 1
      push_cast
      ring

/-- Two different shifts below `N` of an index give different indices modulo `N`. -/
theorem shift_injective (a n : Int) (i j : Nat) (hij : i < j) (hj : (j : Int) < n) :
    (a + (i : Int)) % n ≠ (a + (j : Int)) % n := by
  intro heq
  have hd : n ∣ (a + (j : Int)) - (a + (i : Int)) :=
    Int.dvd_of_emod_eq_zero (Int.emod_eq_emod_iff_emod_sub_eq_zero.1 heq.symm)
  have hpos : (0 : Int) < (a + (j : Int)) - (a + (i : Int)) := by omega
  have := Int.le_of_dvd hpos hd
  omega

/-- A text followed by a newline ends in a newline. -/
theorem HasSuffix_append_newline (s : String) : HasSuffix (s ++ "\n") "\n" = true := by
  unfold HasSuffix
  simp [String.data_append]

/-- `HasSuffix s "\n"` holds exactly for the texts of the form `p ++ "\n"`. -/
theorem HasSuffix_newline_iff (s : String) :
    HasSuffix s "\n" = true ↔ ∃ p : String, s = p ++ "\n" := by
  constructor
  · intro h
    unfold HasSuffix at h
    simp at h
    obtain ⟨h1, h2⟩ := h
    refine ⟨⟨s.data.take (s.data.length - 1)⟩, ?_⟩
    apply String.ext
    rw [String.data_append]
    have h3 : List.drop (s.data.length - 1) s.data = ['\n'] := h2
    have := List.take_append_drop (s.data.length - 1) s.data
    rw [h3] at this
    exact this.symm
  · rintro ⟨p, rfl⟩
    exact HasSuffix_append_newline p

/-- The submit event with the text `"clear"` on a session state: what
`Update` returns. -/
theorem Update_submit_clear (L : Lib σ ν) {tabs : List String} {m : model σ ν} (k : KeyMsg)
    (h : Inv tabs m) (hk : k.type = .KeyEnter) (hrunes : k.Runes = [])
    (hL : EnterKeepsInput L) (hf : L.tiFocused m.inputText = true)
    (hv : L.tiValue m.inputText = "clear") (vp : Viewport ν)
    (hvp : m.tabViewports[m.activeTab.toNat]? = some vp) :
    ∃ r, Update L m (.KeyMsg k) = .ok r ∧
      r.m.tabContents = m.tabContents.set m.activeTab.toNat "" ∧
      r.m.tabViewports = m.tabViewports.set m.activeTab.toNat
        (L.vpGotoTop (L.vpSetContent vp "")) ∧
      r.cmd = .nil ∧ r.calls = [] := by
  obtain ⟨hval, hfoc⟩ := hL m.inputText k hk hrunes
  refine ⟨_, (Update_enter L m k hk).trans (updateEnter_clear L _
    (h.withInput (L.tiUpdate m.inputText (.KeyMsg k)).1) (hfoc.trans hf) (hval.trans hv) vp hvp),
    rfl, rfl, rfl, rfl⟩

/-- The submit event with a command on a session state: what `Update`
returns. -/
theorem Update_submit_run (L : Lib σ ν) {tabs : List String} {m : model σ ν} (k : KeyMsg)
    (h : Inv tabs m) (hk : k.type = .KeyEnter) (hrunes : k.Runes = [])
    (hL : EnterKeepsInput L) (hf : L.tiFocused m.inputText = true)
    (hne : L.tiValue m.inputText ≠ "") (hnc : L.tiValue m.inputText ≠ "clear")
    (tab b : String) (vp : Viewport ν)
    (htab : m.tabs[m.activeTab.toNat]? = some tab)
    (hb : m.tabContents[m.activeTab.toNat]? = some b)
    (hvp : m.tabViewports[m.activeTab.toNat]? = some vp) :
    ∃ r, Update L m (.KeyMsg k) = .ok r ∧
      r.m.tabContents = m.tabContents.set m.activeTab.toNat
        (b ++ separator b ++
          block (m.execute tab (L.tiValue m.inputText)).1 (m.execute tab (L.tiValue m.inputText)).2) ∧
      r.m.tabViewports = m.tabViewports.set m.activeTab.toNat
        (L.vpGotoBottom (L.vpSetContent vp
          (b ++ separator b ++
            block (m.execute tab (L.tiValue m.inputText)).1
              (m.execute tab (L.tiValue m.inputText)).2))) ∧
      r.calls = [(tab, L.tiValue m.inputText)] := by
  obtain ⟨hval, hfoc⟩ := hL m.inputText k hk hrunes
  have hrun := updateEnter_run L [(L.tiUpdate m.inputText (.KeyMsg k)).2]
    (h.withInput (L.tiUpdate m.inputText (.KeyMsg k)).1) (hfoc.trans hf)
    (by rw [hval]; exact hne) (by rw [hval]; exact hnc) tab b vp htab hb hvp
  refine ⟨_, (Update_enter L m k hk).trans hrun, ?_, ?_, ?_⟩
  · show List.set _ _ _ = _
    rw [hval]
  · show List.set _ _ _ = _
    rw [hval]
  · show [(tab, _)] = _
    rw [hval]

/-- Reading the element just assigned. -/
theorem getElem?_set_active {α : Type} (xs : List α) (k : Nat) (x : α) (h : k < xs.length) :
    (xs.set k x)[k]? = some x := by
  simp [List.getElem?_set, h]

/-- The states `sampleModel` with two buffers and an active index in range are
session states. -/
theorem sampleModel_inv (text b0 b1 : String) (active : Int) (ready : Bool)
    (execute : ExecuteCommand) (h0 : 0 ≤ active) (h1 : active < 2) :
    Inv ["A", "B"] (sampleModel text [b0, b1] active ready execute) :=
  ⟨rfl, h0, h1, rfl, rfl⟩

/-- The text input of `simpleLib` leaves text and focus alone on Enter. -/
theorem simpleLib_enterKeepsInput : EnterKeepsInput simpleLib := by
  intro ti k hk _
  simp only [simpleLib, simpleInputUpdate, hk]
  split <;> simp

/-- The separator is a newline for a non-empty buffer without a final newline. -/
theorem separator_of_open (b : String) (h1 : b ≠ "") (h2 : HasSuffix b "\n" = false) :
    separator b = "\n" := by
  simp [separator, h1, h2]

/-- The separator is empty for an empty buffer and for one with a final newline. -/
theorem separator_of_closed (b : String) (h : b = "" ∨ HasSuffix b "\n" = true) :
    separator b = "" := by
  rcases h with h | h <;> simp [separator, h]

/-- The header height does not depend on the text input. -/
theorem headerHeight_withInput (L : Lib σ ν) (m : model σ ν) (ti : TextInput σ) :
    headerHeight L { m with inputText := ti } = headerHeight L m := rfl

/-- The viewport of `simpleLib` keeps the size it is given. -/
theorem simpleLib_keepsSize : KeepsSize simpleLib :=
  ⟨fun _ _ => ⟨rfl, rfl⟩, fun _ _ => ⟨rfl, rfl⟩⟩

/-- An arrow or page key is handled by the `default` case. -/
theorem Update_arrow (L : Lib σ ν) (m : model σ ν) (k : KeyMsg)
    (hk : isArrowKey k.type = true) :
    Update L m (.KeyMsg k) =
      updateDefault L k { m with inputText := (L.tiUpdate m.inputText (.KeyMsg k)).1 }
        [(L.tiUpdate m.inputText (.KeyMsg k)).2] := by
  unfold Update
  cases hty : k.type <;> simp [isArrowKey, hty] at hk <;> simp only [hty]

/-- The window size message is handled by the `tea.WindowSizeMsg` case. -/
theorem Update_windowSize (L : Lib σ ν) (m : model σ ν) (W H : Int) :
    Update L m (.WindowSizeMsg W H) =
      updateWindowSize L W H
        { m with inputText := (L.tiUpdate m.inputText (.WindowSizeMsg W H)).1 }
        [(L.tiUpdate m.inputText (.WindowSizeMsg W H)).2] := rfl

/-- The `default` key case on a ready session state with an arrow or page
key: the viewport handler is applied to the active surface. -/
theorem updateDefault_arrow (L : Lib σ ν) {tabs : List String} {m : model σ ν} (k : KeyMsg)
    (cmds : List Cmd) (h : Inv tabs m) (hr : m.ready = true)
    (hk : isArrowKey k.type = true) (vp : Viewport ν)
    (hvp : m.tabViewports[m.activeTab.toNat]? = some vp) :
    updateDefault L k m cmds = .ok
      { m := { m with
          tabViewports := m.tabViewports.set m.activeTab.toNat (L.vpUpdate vp (.KeyMsg k)).1 }
        cmd := .Batch (cmds ++ [(L.vpUpdate vp (.KeyMsg k)).2])
        calls := [] } := by
  have hvl : m.activeTab.toNat < m.tabViewports.length := by
    rw [h.viewports_len]; exact h.toNat_lt
  have hlen : len m.tabViewports > m.activeTab := by
    unfold len
    rw [h.viewports_len]
    exact h.active_lt
  unfold isArrowKey at hk
  unfold updateDefault
  simp [hr, hlen, hk, bind, Except.bind, pure, Except.pure,
    index_int _ _ vp h.active_nonneg hvp, setIndex_int _ _ _ h.active_nonneg hvl]

/-- The `default` key case on a state that is not ready changes nothing. -/
theorem updateDefault_not_ready (L : Lib σ ν) (m : model σ ν) (k : KeyMsg) (cmds : List Cmd)
    (hr : m.ready = false) :
    updateDefault L k m cmds = .ok { m := m, cmd := .Batch cmds, calls := [] } := by
  unfold updateDefault
  simp [hr]
  rfl

/-- On a session state the view is rendered without a panic. -/
theorem View_ok (L : Lib σ ν) {tabs : List String} {m : model σ ν} (h : Inv tabs m) :
    ∃ s, View L m = .ok s := by
  obtain ⟨t, ht⟩ := getElem?_of_lt m.tabs m.activeTab.toNat
    (by rw [h.tabs_eq]; exact h.toNat_lt)
  obtain ⟨vp, hvp⟩ := getElem?_of_lt m.tabViewports m.activeTab.toNat
    (by rw [h.viewports_len]; exact h.toNat_lt)
  unfold View
  split
  · exact ⟨_, rfl⟩
  · rename_i hc
    have hr : m.ready = true := by
      cases hready : m.ready
      · simp [hready] at hc
      · rfl
    unfold renderStatusBar
    simp [hr, bind, Except.bind, index_int _ _ t h.active_nonneg ht,
      index_int _ _ vp h.active_nonneg hvp]

/-- Every event other than the Enter key on a session state leaves the tab
buffers unchanged. -/
theorem Update_buffers_of_not_enter (L : Lib σ ν) {tabs : List String} {m : model σ ν}
    (msg : Msg) (h : Inv tabs m) (hB : len tabs < 9223372036854775808)
    (hmsg : ∀ k : KeyMsg, msg = .KeyMsg k → k.type ≠ .KeyEnter) :
    ∃ r, Update L m msg = .ok r ∧ Inv tabs r.m ∧ r.m.tabContents = m.tabContents := by
  have h' := h.withInput (L.tiUpdate m.inputText msg).1
  cases msg with
  | KeyMsg k =>
    have hne : k.type ≠ .KeyEnter := hmsg k rfl
    obtain ⟨r, hr, hI, _, hc, _⟩ := updateTab_spec L [(L.tiUpdate m.inputText (.KeyMsg k)).2] h' hB
    obtain ⟨r1, hr1, hI1, _, hc1, _⟩ :=
      updateCtrl_spec L true [(L.tiUpdate m.inputText (.KeyMsg k)).2] h'
    obtain ⟨r2, hr2, hI2, _, hc2, _⟩ :=
      updateCtrl_spec L false [(L.tiUpdate m.inputText (.KeyMsg k)).2] h'
    obtain ⟨r3, hr3, hI3, _, hc3, _⟩ :=
      updateDefault_spec L k [(L.tiUpdate m.inputText (.KeyMsg k)).2] h'
    unfold Update
    cases hk : k.type <;> simp only [hk] at * <;>
      first
      | exact ⟨_, rfl, h', rfl⟩
      | exact ⟨r, hr, hI, hc⟩
      | exact ⟨r1, hr1, hI1, hc1⟩
      | exact ⟨r2, hr2, hI2, hc2⟩
      | exact ⟨r3, hr3, hI3, hc3⟩
      | exact absurd rfl hne
  | WindowSizeMsg W H =>
    obtain ⟨hh, _, r, hr, hI, _, hc, _⟩ := updateWindowSize_spec L W H
      [(L.tiUpdate m.inputText (.WindowSizeMsg W H)).2] h'
    exact ⟨r, hr, hI, hc⟩
  | other t => exact ⟨_, rfl, h', rfl⟩

/-- Assigning the empty string to elements of a slice of empty strings leaves
it as it is. -/
theorem foldl_set_replicate (n : Nat) (is : List Nat) :
    is.foldl (fun tc i => tc.set i "") (List.replicate n "") = List.replicate n "" := by
  induction is with
  | nil => rfl
  | cons i is ih =>
    rw [List.foldl_cons]
    have : (List.replicate n "").set i "" = List.replicate n "" := by
      apply List.ext_getElem?
      intro j
      rw [List.getElem?_set]
      by_cases hij : i = j
      · subst hij
        simp [List.getElem?_replicate]
      · simp [hij]
    rw [this, ih]

/-- The buffers of the model built by `initialModel` are all empty. -/
theorem initialModel_tabContents (L : Lib σ ν) (tabs : List String) (execute : ExecuteCommand) :
    (initialModel L tabs execute).tabContents = List.replicate tabs.length "" := by
  show List.foldl _ _ _ = _
  rw [List.length_replicate]
  exact foldl_set_replicate tabs.length _

/-- The tab list `A`, `B` is within the length of a Go slice. -/
theorem len_AB : len ["A", "B"] < 9223372036854775808 := by decide

/-- The states of `cursorModel` are session states. -/
theorem cursorModel_inv (text : String) (pos : Nat) : Inv ["A", "B"] (cursorModel text pos) :=
  ⟨rfl, le_refl (0 : Int), show (0 : Int) < len ["A", "B"] by decide, rfl, rfl⟩

/-- A state reachable without the Enter key is reachable. -/
theorem ReachableNoSubmit.reachable {L : Lib σ ν} {tabs : List String}
    {execute : ExecuteCommand} {m : model σ ν} (h : ReachableNoSubmit L tabs execute m) :
    Reachable L tabs execute m := by
  induction h with
  | init => exact Reachable.init
  | step m msg r _ _ hr ih => exact Reachable.step m msg r ih hr

/-- Within the 64-bit range the input width is the terminal width minus 6. -/
theorem inputWidth_eq (W : Int) (hlo : -9223372036854775802 ≤ W)
    (hhi : W < 9223372036854775808) : inputWidth W = W - 6 := by
  have h1 : docStyle.GetHorizontalMargins = 4 := by decide
  have h2 : inputTextStyle.GetHorizontalBorderSize = 2 := by decide
  unfold inputWidth contentWidth sub64
  rw [h1, h2, wrap64_of_range (W - 4) (by omega) (by omega),
    wrap64_of_range (W - 4 - 2) (by omega) (by omega)]
  omega

/-- The `tea.KeyEnter` case does nothing when the Input Line is not focused or
holds no text. -/
theorem updateEnter_idle (L : Lib σ ν) (m : model σ ν) (cmds : List Cmd)
    (h : L.tiFocused m.inputText = false ∨ L.tiValue m.inputText = "") :
    updateEnter L m cmds = .ok { m := m, cmd := .Batch cmds, calls := [] } := by
  unfold updateEnter
  rcases h with h | h <;> simp [h] <;> rfl

/-- Every state reachable without the Enter key has empty buffers. -/
theorem ReachableNoSubmit.buffers {L : Lib σ ν} {tabs : List String}
    {execute : ExecuteCommand} {m : model σ ν} (hN : 1 ≤ tabs.length)
    (hB : len tabs < 9223372036854775808) (h : ReachableNoSubmit L tabs execute m) :
    m.tabContents = List.replicate tabs.length "" := by
  induction h with
  | init => exact initialModel_tabContents L tabs execute
  | step m msg r hm hmsg hr ih =>
    obtain ⟨r2, hr2, _, hc⟩ :=
      Update_buffers_of_not_enter L msg (hm.reachable.inv hN hB) hB hmsg
    rw [hr] at hr2
    cases hr2
    rw [hc, ih]

/-! ## The claims -/

/-- C1: for a non-empty tab list of length `N` the model built by
`initialModel` has active index 0, and in every state reachable from it the
Tab key through `Update` maps the active index to `(active + 1) mod N`, `k`
applications give `(active + k) mod N`, `N` applications return the active
index to its starting value, and the indices after `i < j < N` applications
are different. -/
theorem C1_next_tab_cycle (L : Lib σ ν) (tabs : List String) (execute : ExecuteCommand)
    (hN : 1 ≤ tabs.length) (hB : len tabs < 9223372036854775808) :
    (initialModel L tabs execute).activeTab = 0 ∧
    ∀ m : model σ ν, Reachable L tabs execute m →
      (∀ k : KeyMsg, k.type = .KeyTab → ∃ r, Update L m (.KeyMsg k) = .ok r ∧
        r.m.activeTab = (m.activeTab + 1) % len tabs) ∧
      (∀ k : Nat, ∃ mk, nextTabs L k m = .ok mk ∧
        mk.activeTab = (m.activeTab + (k : Int)) % len tabs) ∧
      (∃ mN, nextTabs L tabs.length m = .ok mN ∧ mN.activeTab = m.activeTab) ∧
      (∀ (i j : Nat) (mi mj : model σ ν), i < j → j < tabs.length →
        nextTabs L i m = .ok mi → nextTabs L j m = .ok mj → mi.activeTab ≠ mj.activeTab) := by
  refine ⟨rfl, fun m hm => ?_⟩
  have h := hm.inv hN hB
  refine ⟨?_, ?_, ?_, ?_⟩
  · intro k hk
    obtain ⟨r, hr, _, ha, _⟩ := updateTab_spec L [(L.tiUpdate m.inputText (.KeyMsg k)).2]
      (h.withInput (L.tiUpdate m.inputText (.KeyMsg k)).1) hB
    exact ⟨r, (Update_tab L m k hk).trans hr, ha⟩
  · intro k
    obtain ⟨mk, hmk, _, hak⟩ := nextTabs_spec L hB k h
    exact ⟨mk, hmk, hak⟩
  · obtain ⟨mk, hmk, _, hak⟩ := nextTabs_spec L hB tabs.length h
    refine ⟨mk, hmk, ?_⟩
    rw [hak]
    show (m.activeTab + len tabs) % len tabs = m.activeTab
    rw [Int.add_emod_self, Int.emod_eq_of_lt h.active_nonneg h.active_lt]
  · intro i j mi mj hij hj hi hjj
    obtain ⟨mi2, hmi, _, hai⟩ := nextTabs_spec L hB i h
    obtain ⟨mj2, hmj, _, haj⟩ := nextTabs_spec L hB j h
    rw [hi] at hmi
    rw [hjj] at hmj
    cases hmi
    cases hmj
    rw [hai, haj]
    exact shift_injective m.activeTab (len tabs) i j hij (by unfold len; exact_mod_cast hj)

/-- C1 on the tabs `A`, `B`: two Tab keys from the initial state come back to
index 0. -/
theorem C1_next_tab_cycle_witness :
    (initialModel simpleLib ["A", "B"] echoExecute).activeTab = 0 ∧
    ∃ mN, nextTabs simpleLib 2 (initialModel simpleLib ["A", "B"] echoExecute) = .ok mN ∧
      mN.activeTab = 0 :=
  have h := C1_next_tab_cycle simpleLib ["A", "B"] echoExecute (by decide) (by decide)
  ⟨h.1, (h.2 _ Reachable.init).2.2.1⟩

/-- C2: in every session state (ready or not) whose focused Input Line holds
exactly `"clear"`, the Enter key through `Update` sets the active tab's buffer
to the empty string, replaces the active surface by itself with the empty
content set and `GotoTop` applied, and makes no call to the collaborator. -/
theorem C2_clear_empties_active_tab (L : Lib σ ν) (tabs : List String) (m : model σ ν)
    (k : KeyMsg) (h : Inv tabs m) (hk : k.type = .KeyEnter) (hrunes : k.Runes = [])
    (hL : EnterKeepsInput L) (hf : L.tiFocused m.inputText = true)
    (hv : L.tiValue m.inputText = "clear") :
    ∃ r vp, m.tabViewports[m.activeTab.toNat]? = some vp ∧
      Update L m (.KeyMsg k) = .ok r ∧
      r.m.tabContents[m.activeTab.toNat]? = some "" ∧
      r.m.tabViewports[m.activeTab.toNat]? = some (L.vpGotoTop (L.vpSetContent vp "")) ∧
      r.calls = [] := by
  obtain ⟨vp, hvp⟩ := getElem?_of_lt m.tabViewports m.activeTab.toNat
    (by rw [h.viewports_len]; exact h.toNat_lt)
  obtain ⟨r, hr, hc, hv2, _, hcalls⟩ := Update_submit_clear L k h hk hrunes hL hf hv vp hvp
  refine ⟨r, vp, hvp, hr, ?_, ?_, hcalls⟩
  · rw [hc]
    exact getElem?_set_active _ _ _ (by rw [h.contents_len]; exact h.toNat_lt)
  · rw [hv2]
    exact getElem?_set_active _ _ _ (by rw [h.viewports_len]; exact h.toNat_lt)

/-- C2 on tab `A` holding `"abc"`, not ready: `"clear"` empties the buffer, the
surface is at the top and the collaborator is not called. -/
theorem C2_clear_empties_active_tab_witness :
    ∃ r vp, (sampleModel "clear" ["abc", "x"] 0 false echoExecute).tabViewports[0]? = some vp ∧
      Update simpleLib (sampleModel "clear" ["abc", "x"] 0 false echoExecute) enterKey = .ok r ∧
      r.m.tabContents[0]? = some "" ∧
      r.m.tabViewports[0]? = some (simpleLib.vpGotoTop (simpleLib.vpSetContent vp "")) ∧
      r.calls = [] :=
  C2_clear_empties_active_tab simpleLib ["A", "B"]
    (sampleModel "clear" ["abc", "x"] 0 false echoExecute)
    { type := .KeyEnter, Runes := [], Alt := false }
    (sampleModel_inv _ _ _ _ _ _ (by decide) (by decide)) rfl rfl
    simpleLib_enterKeepsInput rfl rfl

/-- C3: in every session state whose focused Input Line holds a text `t` that
is non-empty and not `"clear"`, the Enter key through `Update` calls the
collaborator exactly once, with the name of the tab active before the event
and `t`. -/
theorem C3_submit_calls_once (L : Lib σ ν) (tabs : List String) (m : model σ ν)
    (k : KeyMsg) (h : Inv tabs m) (hk : k.type = .KeyEnter) (hrunes : k.Runes = [])
    (hL : EnterKeepsInput L) (hf : L.tiFocused m.inputText = true)
    (hne : L.tiValue m.inputText ≠ "") (hnc : L.tiValue m.inputText ≠ "clear") :
    ∃ r tab, m.tabs[m.activeTab.toNat]? = some tab ∧
      Update L m (.KeyMsg k) = .ok r ∧
      r.calls = [(tab, L.tiValue m.inputText)] := by
  obtain ⟨tab, htab⟩ := getElem?_of_lt m.tabs m.activeTab.toNat
    (by rw [h.tabs_eq]; exact h.toNat_lt)
  obtain ⟨b, hb⟩ := getElem?_of_lt m.tabContents m.activeTab.toNat
    (by rw [h.contents_len]; exact h.toNat_lt)
  obtain ⟨vp, hvp⟩ := getElem?_of_lt m.tabViewports m.activeTab.toNat
    (by rw [h.viewports_len]; exact h.toNat_lt)
  obtain ⟨r, hr, _, _, hcalls⟩ :=
    Update_submit_run L k h hk hrunes hL hf hne hnc tab b vp htab hb hvp
  exact ⟨r, tab, htab, hr, hcalls⟩

/-- C3 on tab `B`: submitting `"ls"` calls the collaborator once with
`("B", "ls")`. -/
theorem C3_submit_calls_once_witness :
    ∃ r tab, (sampleModel "ls" ["abc", "x"] 1 true echoExecute).tabs[1]? = some tab ∧
      Update simpleLib (sampleModel "ls" ["abc", "x"] 1 true echoExecute) enterKey = .ok r ∧
      r.calls = [(tab, "ls")] :=
  C3_submit_calls_once simpleLib ["A", "B"]
    (sampleModel "ls" ["abc", "x"] 1 true echoExecute)
    { type := .KeyEnter, Runes := [], Alt := false }
    (sampleModel_inv _ _ _ _ _ _ (by decide) (by decide)) rfl rfl
    simpleLib_enterKeepsInput rfl (by decide) (by decide)


/-- C4 as stated fails: with the failure `"boom"` the submit event on the
empty buffer of tab `A` leaves the buffer `"out\nboom"`, which does not end in
a newline. -/
theorem C4_counterexample :
    ∃ r, Update simpleLib (sampleModel "hello" ["", "x"] 0 true boomExecute) enterKey = .ok r ∧
      r.m.tabContents[0]? = some "out\nboom" ∧
      HasSuffix "out\nboom" "\n" = false :=
  ⟨_, rfl, rfl, by decide⟩

/-- C4, amended: for every collaborator outcome, submitting a non-empty text
other than `"clear"` leaves the active tab's buffer equal to the old buffer
followed by the separator and exactly one block, the result string, a newline
and the failure message if there is one; when the collaborator reports no
failure the block and the new buffer end in a newline. -/
theorem C4_submit_appends_one_block (L : Lib σ ν) (tabs : List String) (m : model σ ν)
    (k : KeyMsg) (h : Inv tabs m) (hk : k.type = .KeyEnter) (hrunes : k.Runes = [])
    (hL : EnterKeepsInput L) (hf : L.tiFocused m.inputText = true)
    (hne : L.tiValue m.inputText ≠ "") (hnc : L.tiValue m.inputText ≠ "clear") :
    ∃ r tab b, m.tabs[m.activeTab.toNat]? = some tab ∧
      m.tabContents[m.activeTab.toNat]? = some b ∧
      Update L m (.KeyMsg k) = .ok r ∧
      r.m.tabContents[m.activeTab.toNat]? = some (b ++ separator b ++
        block (m.execute tab (L.tiValue m.inputText)).1
          (m.execute tab (L.tiValue m.inputText)).2) ∧
      ((m.execute tab (L.tiValue m.inputText)).2 = none →
        HasSuffix (block (m.execute tab (L.tiValue m.inputText)).1
          (m.execute tab (L.tiValue m.inputText)).2) "\n" = true ∧
        HasSuffix (b ++ separator b ++
          block (m.execute tab (L.tiValue m.inputText)).1
            (m.execute tab (L.tiValue m.inputText)).2) "\n" = true) := by
  obtain ⟨tab, htab⟩ := getElem?_of_lt m.tabs m.activeTab.toNat
    (by rw [h.tabs_eq]; exact h.toNat_lt)
  obtain ⟨b, hb⟩ := getElem?_of_lt m.tabContents m.activeTab.toNat
    (by rw [h.contents_len]; exact h.toNat_lt)
  obtain ⟨vp, hvp⟩ := getElem?_of_lt m.tabViewports m.activeTab.toNat
    (by rw [h.viewports_len]; exact h.toNat_lt)
  obtain ⟨r, hr, hc, _, _⟩ :=
    Update_submit_run L k h hk hrunes hL hf hne hnc tab b vp htab hb hvp
  refine ⟨r, tab, b, htab, hb, hr, ?_, ?_⟩
  · rw [hc]
    exact getElem?_set_active _ _ _ (by rw [h.contents_len]; exact h.toNat_lt)
  · intro hnone
    rw [hnone]
    constructor
    · exact HasSuffix_append_newline _
    · show HasSuffix (b ++ separator b ++ (_ ++ "\n")) "\n" = true
      rw [← String.append_assoc]
      exact HasSuffix_append_newline _

/-- C4, amended, on tab `A` holding `"abc"` with the echo collaborator: the
buffer becomes `"abc\necho:hello\n"`. -/
theorem C4_submit_appends_one_block_witness :
    ∃ r, Update simpleLib (sampleModel "hello" ["abc", "x"] 0 true echoExecute) enterKey = .ok r ∧
      r.m.tabContents[0]? = some "abc\necho:hello\n" ∧
      HasSuffix "abc\necho:hello\n" "\n" = true :=
  match C4_submit_appends_one_block simpleLib ["A", "B"]
    (sampleModel "hello" ["abc", "x"] 0 true echoExecute)
    { type := .KeyEnter, Runes := [], Alt := false }
    (sampleModel_inv _ _ _ _ _ _ (by decide) (by decide)) rfl rfl
    simpleLib_enterKeepsInput rfl (by decide) (by decide) with
  | ⟨r, _, _, htab, hb, hr, hc, hs⟩ => by
    cases htab
    cases hb
    exact ⟨r, hr, hc, (hs rfl).2⟩

/-- C5 as stated fails: with result `"out"` and failure `"boom"` the submit
event on the buffer `"abc"` leaves `"abc\nout\nboom"`, not the result
immediately followed by the message and a trailing newline. -/
theorem C5_counterexample :
    ∃ r, Update simpleLib (sampleModel "run" ["abc", "x"] 0 false boomExecute) enterKey = .ok r ∧
      r.m.tabContents[0]? = some "abc\nout\nboom" ∧
      "abc\nout\nboom" ≠ "abc" ++ separator "abc" ++ "out" ++ "boom" ++ "\n" :=
  ⟨_, rfl, rfl, by decide⟩

/-- C5, amended: when the collaborator returns the result `out` with a failure
whose message is `e`, the submit event leaves the active tab's buffer
`old ++ sep ++ out ++ "\n" ++ e`: the message follows the result after a
newline and nothing follows the message. -/
theorem C5_failure_block (L : Lib σ ν) (tabs : List String) (m : model σ ν)
    (k : KeyMsg) (tab out e : String) (h : Inv tabs m) (hk : k.type = .KeyEnter)
    (hrunes : k.Runes = []) (hL : EnterKeepsInput L)
    (hf : L.tiFocused m.inputText = true)
    (hne : L.tiValue m.inputText ≠ "") (hnc : L.tiValue m.inputText ≠ "clear")
    (htab : m.tabs[m.activeTab.toNat]? = some tab)
    (hex : m.execute tab (L.tiValue m.inputText) = (out, some e)) :
    ∃ r b, m.tabContents[m.activeTab.toNat]? = some b ∧
      Update L m (.KeyMsg k) = .ok r ∧
      r.m.tabContents[m.activeTab.toNat]? = some (b ++ separator b ++ out ++ "\n" ++ e) := by
  obtain ⟨b, hb⟩ := getElem?_of_lt m.tabContents m.activeTab.toNat
    (by rw [h.contents_len]; exact h.toNat_lt)
  obtain ⟨vp, hvp⟩ := getElem?_of_lt m.tabViewports m.activeTab.toNat
    (by rw [h.viewports_len]; exact h.toNat_lt)
  obtain ⟨r, hr, hc, _, _⟩ :=
    Update_submit_run L k h hk hrunes hL hf hne hnc tab b vp htab hb hvp
  refine ⟨r, b, hb, hr, ?_⟩
  rw [hc, hex]
  rw [getElem?_set_active _ _ _ (by rw [h.contents_len]; exact h.toNat_lt)]
  simp only [block, String.append_assoc]

/-- C5, amended, with the failure `"boom"` on tab `B` holding `"x\n"`: the
buffer becomes `"x\nout\nboom"`. -/
theorem C5_failure_block_witness :
    ∃ r, Update simpleLib (sampleModel "run" ["abc", "x\n"] 1 true boomExecute) enterKey = .ok r ∧
      r.m.tabContents[1]? = some "x\nout\nboom" :=
  match C5_failure_block simpleLib ["A", "B"]
    (sampleModel "run" ["abc", "x\n"] 1 true boomExecute)
    { type := .KeyEnter, Runes := [], Alt := false } "B" "out" "boom"
    (sampleModel_inv _ _ _ _ _ _ (by decide) (by decide)) rfl rfl
    simpleLib_enterKeepsInput rfl (by decide) (by decide) rfl rfl with
  | ⟨r, _, hb, hr, hc⟩ => by
    cases hb
    exact ⟨r, hr, hc⟩


/-- C6: when the collaborator returns the result `out` with no failure, the
submit event changes the active tab's buffer `b` to `b ++ sep ++ out ++ "\n"`,
where `sep` is a newline if `b` is non-empty and does not end in a newline and
empty otherwise; from an empty buffer the new buffer is `out ++ "\n"`. -/
theorem C6_success_block (L : Lib σ ν) (tabs : List String) (m : model σ ν)
    (k : KeyMsg) (tab out : String) (h : Inv tabs m) (hk : k.type = .KeyEnter)
    (hrunes : k.Runes = []) (hL : EnterKeepsInput L)
    (hf : L.tiFocused m.inputText = true)
    (hne : L.tiValue m.inputText ≠ "") (hnc : L.tiValue m.inputText ≠ "clear")
    (htab : m.tabs[m.activeTab.toNat]? = some tab)
    (hex : m.execute tab (L.tiValue m.inputText) = (out, none)) :
    ∃ r b, m.tabContents[m.activeTab.toNat]? = some b ∧
      Update L m (.KeyMsg k) = .ok r ∧
      r.m.tabContents[m.activeTab.toNat]? = some (b ++ separator b ++ out ++ "\n") ∧
      (b ≠ "" ∧ HasSuffix b "\n" = false → separator b = "\n") ∧
      (b = "" ∨ HasSuffix b "\n" = true → separator b = "") ∧
      (b = "" → r.m.tabContents[m.activeTab.toNat]? = some (out ++ "\n")) := by
  obtain ⟨b, hb⟩ := getElem?_of_lt m.tabContents m.activeTab.toNat
    (by rw [h.contents_len]; exact h.toNat_lt)
  obtain ⟨vp, hvp⟩ := getElem?_of_lt m.tabViewports m.activeTab.toNat
    (by rw [h.viewports_len]; exact h.toNat_lt)
  obtain ⟨r, hr, hc, _, _⟩ :=
    Update_submit_run L k h hk hrunes hL hf hne hnc tab b vp htab hb hvp
  have hnew : r.m.tabContents[m.activeTab.toNat]? = some (b ++ separator b ++ out ++ "\n") := by
    rw [hc, hex]
    rw [getElem?_set_active _ _ _ (by rw [h.contents_len]; exact h.toNat_lt)]
    simp only [block, String.append_assoc]
  refine ⟨r, b, hb, hr, hnew, fun h1 => separator_of_open b h1.1 h1.2,
    separator_of_closed b, ?_⟩
  intro hempty
  rw [hnew, separator_of_closed b (Or.inl hempty), hempty]
  rfl

/-- C6 on the tabs `A`, `B`: submitting `"hello"` on the empty tab `A` with
the echo collaborator makes its buffer exactly `"echo:hello\n"`. -/
theorem C6_success_block_witness :
    ∃ r, Update simpleLib (sampleModel "hello" ["", ""] 0 true echoExecute) enterKey = .ok r ∧
      r.m.tabContents[0]? = some "echo:hello\n" :=
  match C6_success_block simpleLib ["A", "B"]
    (sampleModel "hello" ["", ""] 0 true echoExecute)
    { type := .KeyEnter, Runes := [], Alt := false } "A" "echo:hello"
    (sampleModel_inv _ _ _ _ _ _ (by decide) (by decide)) rfl rfl
    simpleLib_enterKeepsInput rfl (by decide) (by decide) rfl rfl with
  | ⟨r, _, hb, hr, _, _, _, he⟩ => by
    cases hb
    exact ⟨r, hr, he rfl⟩

/-- C7: for every collaborator outcome, a submit of a text other than
`"clear"` on a buffer `b` that is empty or ends in a newline inserts no
separator, the new buffer being `b` immediately followed by the block, which
starts with the result string; on a non-empty `b` that does not end in a
newline exactly one newline stands between `b` and the block. -/
theorem C7_separator_only_when_needed (L : Lib σ ν) (tabs : List String) (m : model σ ν)
    (k : KeyMsg) (h : Inv tabs m) (hk : k.type = .KeyEnter) (hrunes : k.Runes = [])
    (hL : EnterKeepsInput L) (hf : L.tiFocused m.inputText = true)
    (hne : L.tiValue m.inputText ≠ "") (hnc : L.tiValue m.inputText ≠ "clear") :
    ∃ r tab b, m.tabs[m.activeTab.toNat]? = some tab ∧
      m.tabContents[m.activeTab.toNat]? = some b ∧
      Update L m (.KeyMsg k) = .ok r ∧
      block (m.execute tab (L.tiValue m.inputText)).1 (m.execute tab (L.tiValue m.inputText)).2 =
        (m.execute tab (L.tiValue m.inputText)).1 ++ "\n" ++
          ((m.execute tab (L.tiValue m.inputText)).2).getD "" ∧
      (b = "" ∨ HasSuffix b "\n" = true →
        r.m.tabContents[m.activeTab.toNat]? = some (b ++
          block (m.execute tab (L.tiValue m.inputText)).1
            (m.execute tab (L.tiValue m.inputText)).2)) ∧
      (b ≠ "" ∧ HasSuffix b "\n" = false →
        r.m.tabContents[m.activeTab.toNat]? = some (b ++ "\n" ++
          block (m.execute tab (L.tiValue m.inputText)).1
            (m.execute tab (L.tiValue m.inputText)).2)) := by
  obtain ⟨tab, htab⟩ := getElem?_of_lt m.tabs m.activeTab.toNat
    (by rw [h.tabs_eq]; exact h.toNat_lt)
  obtain ⟨b, hb⟩ := getElem?_of_lt m.tabContents m.activeTab.toNat
    (by rw [h.contents_len]; exact h.toNat_lt)
  obtain ⟨vp, hvp⟩ := getElem?_of_lt m.tabViewports m.activeTab.toNat
    (by rw [h.viewports_len]; exact h.toNat_lt)
  obtain ⟨r, hr, hc, _, _⟩ :=
    Update_submit_run L k h hk hrunes hL hf hne hnc tab b vp htab hb hvp
  have hnew := getElem?_set_active m.tabContents m.activeTab.toNat
    (b ++ separator b ++ block (m.execute tab (L.tiValue m.inputText)).1
      (m.execute tab (L.tiValue m.inputText)).2)
    (by rw [h.contents_len]; exact h.toNat_lt)
  rw [← hc] at hnew
  refine ⟨r, tab, b, htab, hb, hr, ?_, ?_, ?_⟩
  · cases (m.execute tab (L.tiValue m.inputText)).2 with
    | none => simp [block]
    | some e => simp [block]
  · intro hclosed
    rw [hnew, separator_of_closed b hclosed, String.append_empty]
  · intro hopen
    rw [hnew, separator_of_open b hopen.1 hopen.2]

/-- C7 on tab `B` holding `"x\n"`: the echo of `"ls"` follows the buffer
without a blank line. -/
theorem C7_separator_only_when_needed_witness :
    ∃ r, Update simpleLib (sampleModel "ls" ["abc", "x\n"] 1 true echoExecute) enterKey = .ok r ∧
      r.m.tabContents[1]? = some "x\necho:ls\n" :=
  match C7_separator_only_when_needed simpleLib ["A", "B"]
    (sampleModel "ls" ["abc", "x\n"] 1 true echoExecute)
    { type := .KeyEnter, Runes := [], Alt := false }
    (sampleModel_inv _ _ _ _ _ _ (by decide) (by decide)) rfl rfl
    simpleLib_enterKeepsInput rfl (by decide) (by decide) with
  | ⟨r, _, _, htab, hb, hr, _, hclosed, _⟩ => by
    cases htab
    cases hb
    exact ⟨r, hr, hclosed (Or.inr (by decide))⟩

/-- C8: for every Enter key on a session state, whatever the Input Line holds
and whatever the collaborator returns, `Update` returns a state with the same
tab list and active index in which the buffer of every tab other than the
active one is unchanged. -/
theorem C8_submit_frame (L : Lib σ ν) (tabs : List String) (m : model σ ν) (k : KeyMsg)
    (h : Inv tabs m) (hk : k.type = .KeyEnter) :
    ∃ r, Update L m (.KeyMsg k) = .ok r ∧ r.m.tabs = m.tabs ∧
      r.m.activeTab = m.activeTab ∧
      ∀ i : Nat, i ≠ m.activeTab.toNat → r.m.tabContents[i]? = m.tabContents[i]? := by
  obtain ⟨r, hr, hI, ha, _, hframe⟩ := updateEnter_frame L
    [(L.tiUpdate m.inputText (.KeyMsg k)).2]
    (h.withInput (L.tiUpdate m.inputText (.KeyMsg k)).1)
  exact ⟨r, (Update_enter L m k hk).trans hr, hI.tabs_eq.trans h.tabs_eq.symm, ha, hframe⟩

/-- C8 on tab `A`: submitting `"hello"` leaves the buffer `"x"` of tab `B`, the
tab list and the active index alone. -/
theorem C8_submit_frame_witness :
    ∃ r, Update simpleLib (sampleModel "hello" ["abc", "x"] 0 true echoExecute) enterKey = .ok r ∧
      r.m.tabs = ["A", "B"] ∧ r.m.activeTab = 0 ∧ r.m.tabContents[1]? = some "x" :=
  match C8_submit_frame simpleLib ["A", "B"]
    (sampleModel "hello" ["abc", "x"] 0 true echoExecute)
    { type := .KeyEnter, Runes := [], Alt := false }
    (sampleModel_inv _ _ _ _ _ _ (by decide) (by decide)) rfl with
  | ⟨r, hr, ht, ha, hframe⟩ => ⟨r, hr, ht, ha, hframe 1 (by decide)⟩

/-- C9 as stated fails: `initialModel` on the empty tab list returns a state
with no tabs, and the Tab key on that state panics with a division by zero. -/
theorem C9_counterexample :
    (initialModel simpleLib [] echoExecute).tabs = [] ∧
    (initialModel simpleLib [] echoExecute).ready = false ∧
    Update simpleLib (initialModel simpleLib [] echoExecute) tabKey = .error .divideByZero :=
  ⟨rfl, rfl, rfl⟩

/-- C9, amended: `initialModel` on the empty tab list does not fail, it returns
the session state with no tabs, active index 0, no buffers, no surfaces, the
focused text input and the readiness flag false. -/
theorem C9_empty_tab_list_constructs (L : Lib σ ν) (execute : ExecuteCommand) :
    initialModel L [] execute =
      { tabs := []
        activeTab := 0
        tabContents := []
        tabViewports := []
        inputText := L.tiFocus { L.tiNew with Placeholder := "Type something and press Enter..." }
        width := 0
        height := 0
        ready := false
        execute := execute } :=
  rfl

/-- C10: a resize event on a session state with `N` tabs returns a ready state
with `N` surfaces, each of the computed width and height, the same tabs,
active index and buffers, and the new session width and height; received
while not ready, surface `i` is a new surface of the computed size with the
buffer of tab `i` set as content; received while ready, surface `i` is the old
surface `i` with the new width and height and the buffer of tab `i` set again. -/
theorem C10_resize (L : Lib σ ν) (tabs : List String) (m : model σ ν) (W H : Int)
    (h : Inv tabs m) (hL : KeepsSize L) :
    ∃ hh r, headerHeight L { m with width := W, height := H } = .ok hh ∧
      Update L m (.WindowSizeMsg W H) = .ok r ∧
      r.m.ready = true ∧ r.m.tabViewports.length = tabs.length ∧
      r.m.tabs = m.tabs ∧ r.m.activeTab = m.activeTab ∧ r.m.tabContents = m.tabContents ∧
      r.m.width = W ∧ r.m.height = H ∧
      (∀ (i : Nat) (vp : Viewport ν), i < tabs.length → r.m.tabViewports[i]? = some vp →
        vp.Width = viewportWidth W ∧ vp.Height = viewportContentHeight H hh) ∧
      (m.ready = false → ∀ (i : Nat) (c : String), m.tabContents[i]? = some c →
        r.m.tabViewports[i]? =
          some (L.vpSetContent (L.vpNew (viewportWidth W) (viewportContentHeight H hh)) c)) ∧
      (m.ready = true → ∀ (i : Nat) (vp : Viewport ν) (c : String),
        m.tabViewports[i]? = some vp → m.tabContents[i]? = some c →
        r.m.tabViewports[i]? = some (L.vpSetContent
          { vp with Width := viewportWidth W, Height := viewportContentHeight H hh } c)) := by
  obtain ⟨hh, hhh, r, hr, hI, ha, hc, hready, _, hw, hht, _, hfirst, hre⟩ :=
    updateWindowSize_spec L W H [(L.tiUpdate m.inputText (.WindowSizeMsg W H)).2]
      (h.withInput (L.tiUpdate m.inputText (.WindowSizeMsg W H)).1)
  refine ⟨hh, r, hhh, hr, hready, hI.viewports_len, hI.tabs_eq.trans h.tabs_eq.symm, ha, hc,
    hw, hht, ?_, hfirst, hre⟩
  intro i vp hi hvp
  obtain ⟨c, hci⟩ := getElem?_of_lt m.tabContents i (by rw [h.contents_len]; exact hi)
  obtain ⟨old, hold⟩ := getElem?_of_lt m.tabViewports i (by rw [h.viewports_len]; exact hi)
  rcases Bool.eq_false_or_eq_true m.ready with hr2 | hr2
  · have := hre hr2 i old c hold hci
    rw [hvp] at this
    cases this
    exact ⟨(hL.2 _ _).1, (hL.2 _ _).2⟩
  · have := hfirst hr2 i c hci
    rw [hvp] at this
    cases this
    exact ⟨((hL.2 _ _).1).trans (hL.1 _ _).1, ((hL.2 _ _).2).trans (hL.1 _ _).2⟩

/-- C10 on the initial state over the tabs `A`, `B`: the first resize to
80 by 24 makes the state ready with two surfaces and the active index 0. -/
theorem C10_resize_witness :
    ∃ r, Update simpleLib (initialModel simpleLib ["A", "B"] echoExecute)
        (.WindowSizeMsg 80 24) = .ok r ∧
      r.m.ready = true ∧ r.m.tabViewports.length = 2 ∧ r.m.activeTab = 0 ∧
      r.m.width = 80 ∧ r.m.height = 24 :=
  match C10_resize simpleLib ["A", "B"] (initialModel simpleLib ["A", "B"] echoExecute) 80 24
    (initialModel_inv simpleLib ["A", "B"] echoExecute (by decide)) simpleLib_keepsSize with
  | ⟨_, r, _, hr, hready, hlen, _, ha, _, hw, hh, _⟩ => ⟨r, hr, hready, hlen, ha, hw, hh⟩

/-- C11: the two-tab scenario as a trace of `Update` from
`initialModel(["A","B"], stub)` with the stub returning `"echo:" ++ command`
and no failure, the Input Line holding the typed text at each submit: after
submitting `"hello"` the buffers are `"echo:hello\n"` and `""`; after next-tab
the active index is 1 and the buffers are the same; after submitting `"clear"`
on `B` the buffers are still `"echo:hello\n"` and `""`; the stub was called
once overall, with `("A", "hello")`. -/
theorem C11_two_tab_scenario (L : Lib σ ν) (hL : EnterKeepsInput L) (ti1 : TextInput σ)
    (hf1 : L.tiFocused ti1 = true) (hv1 : L.tiValue ti1 = "hello") :
    ∃ r1 r2,
      Update L { initialModel L ["A", "B"] echoExecute with inputText := ti1 } enterKey = .ok r1 ∧
      r1.m.tabContents = ["echo:hello\n", ""] ∧
      Update L r1.m tabKey = .ok r2 ∧
      r2.m.activeTab = 1 ∧
      r2.m.tabContents = ["echo:hello\n", ""] ∧
      ∀ ti2 : TextInput σ, L.tiFocused ti2 = true → L.tiValue ti2 = "clear" →
        ∃ r3, Update L { r2.m with inputText := ti2 } enterKey = .ok r3 ∧
          r3.m.tabContents = ["echo:hello\n", ""] ∧
          r1.calls ++ r2.calls ++ r3.calls = [("A", "hello")] := by
  have hI0 : Inv ["A", "B"] { initialModel L ["A", "B"] echoExecute with inputText := ti1 } :=
    (initialModel_inv L ["A", "B"] echoExecute (by decide)).withInput ti1
  -- submit "hello" on A
  obtain ⟨r1, hr1, hc1, _, hcalls1⟩ := Update_submit_run L
    { type := .KeyEnter, Runes := [], Alt := false } hI0 rfl rfl hL hf1
    (by rw [hv1]; decide) (by rw [hv1]; decide) "A" ""
    { Width := 0, Height := 0, core := L.vpZero } rfl rfl rfl
  obtain ⟨r1b, hr1b, hI1, ha1, _, _⟩ := updateEnter_frame L
    [(L.tiUpdate ti1 enterKey).2] (hI0.withInput (L.tiUpdate ti1 enterKey).1)
  have hr1c : Update L { initialModel L ["A", "B"] echoExecute with inputText := ti1 } enterKey
      = .ok r1b := (Update_enter L _ _ rfl).trans hr1b
  have heq : r1b = r1 := by
    have := hr1c.symm.trans hr1
    cases this
    rfl
  subst heq
  have hc1b : r1b.m.tabContents = ["echo:hello\n", ""] := by
    rw [hc1]
    show List.set _ _ _ = _
    rw [hv1]
    rfl
  -- next-tab
  obtain ⟨r2, hr2, hI2, ha2, hc2, _, hcalls2⟩ := updateTab_spec L
    [(L.tiUpdate r1b.m.inputText tabKey).2]
    (hI1.withInput (L.tiUpdate r1b.m.inputText tabKey).1) len_AB
  have hU2 : Update L r1b.m tabKey = .ok r2 := (Update_tab L r1b.m _ rfl).trans hr2
  have ha2b : r2.m.activeTab = 1 := by
    rw [ha2]
    show (r1b.m.activeTab + 1) % len ["A", "B"] = 1
    rw [ha1]
    rfl
  have hc2b : r2.m.tabContents = ["echo:hello\n", ""] := hc2.trans hc1b
  refine ⟨r1b, r2, hr1, hc1b, hU2, ha2b, hc2b, ?_⟩
  -- submit "clear" on B
  intro ti2 hf2 hv2
  have hI3 : Inv ["A", "B"] { r2.m with inputText := ti2 } := hI2.withInput ti2
  obtain ⟨vp, hvp⟩ := getElem?_of_lt r2.m.tabViewports r2.m.activeTab.toNat
    (by rw [hI2.viewports_len]; exact hI2.toNat_lt)
  obtain ⟨r3, hr3, hc3, _, _, hcalls3⟩ := Update_submit_clear L
    { type := .KeyEnter, Runes := [], Alt := false } hI3 rfl rfl hL hf2 hv2 vp hvp
  refine ⟨r3, hr3, ?_, ?_⟩
  · rw [hc3]
    show List.set r2.m.tabContents r2.m.activeTab.toNat "" = _
    rw [hc2b, ha2b]
    rfl
  · rw [hcalls1, hcalls2, hcalls3]
    show [("A", L.tiValue ti1)] ++ [] ++ [] = _
    rw [hv1]
    rfl

/-- C11 in `simpleLib`, the Input Line holding what typing `"hello"` and then
`"clear"` leaves in it. -/
theorem C11_two_tab_scenario_witness :
    ∃ r1 r2 r3,
      Update simpleLib
        { initialModel simpleLib ["A", "B"] echoExecute with
          inputText := (simpleLib.tiUpdate
            (initialModel simpleLib ["A", "B"] echoExecute).inputText (typeKey "hello")).1 }
        enterKey = .ok r1 ∧
      r1.m.tabContents = ["echo:hello\n", ""] ∧
      Update simpleLib r1.m tabKey = .ok r2 ∧
      r2.m.activeTab = 1 ∧
      Update simpleLib
        { r2.m with inputText := (simpleLib.tiUpdate
            (initialModel simpleLib ["A", "B"] echoExecute).inputText (typeKey "clear")).1 }
        enterKey = .ok r3 ∧
      r3.m.tabContents = ["echo:hello\n", ""] ∧
      r1.calls ++ r2.calls ++ r3.calls = [("A", "hello")] :=
  match C11_two_tab_scenario simpleLib simpleLib_enterKeepsInput
    (simpleLib.tiUpdate (initialModel simpleLib ["A", "B"] echoExecute).inputText
      (typeKey "hello")).1 rfl rfl with
  | ⟨r1, r2, h1, hc1, h2, ha2, _, h3⟩ =>
    match h3 (simpleLib.tiUpdate (initialModel simpleLib ["A", "B"] echoExecute).inputText
      (typeKey "clear")).1 rfl rfl with
    | ⟨r3, hr3, hc3, hcalls⟩ => ⟨r1, r2, r3, h1, hc1, h2, ha2, hr3, hc3, hcalls⟩

/-- C12 as stated fails: with a text input that has a cursor, the Left key
through `Update` moves the cursor of the Input Line from 3 to 2, so the Input
Line after `Update` is not the one before. -/
theorem C12_counterexample :
    ∃ r, Update cursorLib (cursorModel "abc" 3)
        (.KeyMsg { type := .KeyLeft, Runes := [], Alt := false }) = .ok r ∧
      (cursorModel "abc" 3).inputText.core.pos = 3 ∧
      r.m.inputText.core.pos = 2 ∧
      r.m.inputText ≠ (cursorModel "abc" 3).inputText :=
  ⟨_, rfl, rfl, rfl, fun h => absurd (congrArg (fun t => t.core.pos) h) (by decide)⟩

/-- C12, amended: an arrow or page key event on a session state is applied to
the Input Line's own update handler first, like every message, so the Input
Line after `Update` is the result of that handler; of the surfaces only the
active one is touched, by the viewport's handler and only when the state is
ready; buffers and active index are unchanged and the collaborator is not
called. -/
theorem C12_arrow_key_routing (L : Lib σ ν) (tabs : List String) (m : model σ ν)
    (k : KeyMsg) (h : Inv tabs m) (hk : isArrowKey k.type = true) :
    ∃ r, Update L m (.KeyMsg k) = .ok r ∧
      r.m.inputText = (L.tiUpdate m.inputText (.KeyMsg k)).1 ∧
      (∀ i : Nat, i ≠ m.activeTab.toNat → r.m.tabViewports[i]? = m.tabViewports[i]?) ∧
      (m.ready = true → ∃ vp, m.tabViewports[m.activeTab.toNat]? = some vp ∧
        r.m.tabViewports[m.activeTab.toNat]? = some (L.vpUpdate vp (.KeyMsg k)).1) ∧
      (m.ready = false → r.m.tabViewports = m.tabViewports) ∧
      r.m.tabContents = m.tabContents ∧ r.m.activeTab = m.activeTab ∧ r.calls = [] := by
  have h' := h.withInput (L.tiUpdate m.inputText (.KeyMsg k)).1
  obtain ⟨vp, hvp⟩ := getElem?_of_lt m.tabViewports m.activeTab.toNat
    (by rw [h.viewports_len]; exact h.toNat_lt)
  rcases Bool.eq_false_or_eq_true m.ready with hr | hr
  · refine ⟨_, (Update_arrow L m k hk).trans
      (updateDefault_arrow L k _ h' hr hk vp hvp), rfl, ?_, ?_, ?_, rfl, rfl, rfl⟩
    · intro i hi
      exact List.getElem?_set_ne (Ne.symm hi)
    · intro _
      exact ⟨vp, hvp, getElem?_set_active _ _ _ (by rw [h.viewports_len]; exact h.toNat_lt)⟩
    · intro hf
      rw [hr] at hf
      exact absurd hf (by decide)
  · refine ⟨_, (Update_arrow L m k hk).trans
      (updateDefault_not_ready L _ k _ hr), rfl, fun _ _ => rfl, ?_, fun _ => rfl, rfl, rfl, rfl⟩
    intro ht
    rw [hr] at ht
    exact absurd ht (by decide)

/-- C12, amended, with `cursorLib`: after the Left key the Input Line is what
its own handler returns, with the cursor at 2. -/
theorem C12_arrow_key_routing_witness :
    ∃ r, Update cursorLib (cursorModel "abc" 3)
        (.KeyMsg { type := .KeyLeft, Runes := [], Alt := false }) = .ok r ∧
      r.m.inputText = (cursorLib.tiUpdate (cursorModel "abc" 3).inputText
        (.KeyMsg { type := .KeyLeft, Runes := [], Alt := false })).1 ∧
      r.m.tabContents = ["", ""] ∧ r.m.activeTab = 0 ∧ r.calls = [] :=
  match C12_arrow_key_routing cursorLib ["A", "B"] (cursorModel "abc" 3)
    { type := .KeyLeft, Runes := [], Alt := false } (cursorModel_inv "abc" 3) rfl with
  | ⟨r, hr, hi, _, _, _, hc, ha, hcalls⟩ => ⟨r, hr, hi, hc, ha, hcalls⟩

/-- C13 at the failing inputs: the first resize to 3 columns by 2 rows gives
both surfaces the width -3 and the height -9, the first resize to 80 columns
by 10 rows gives them the height -1; only the Input Line's width is brought up
to 0. -/
theorem C13_resize_negative_size :
    (∃ r, Update simpleLib (initialModel simpleLib ["A", "B"] echoExecute)
        (.WindowSizeMsg 3 2) = .ok r ∧
      r.m.tabViewports.map (fun vp => (vp.Width, vp.Height)) = [(-3, -9), (-3, -9)] ∧
      r.m.inputText.Width = 0) ∧
    (∃ r, Update simpleLib (initialModel simpleLib ["A", "B"] echoExecute)
        (.WindowSizeMsg 80 10) = .ok r ∧
      r.m.tabViewports.map (fun vp => (vp.Width, vp.Height)) = [(74, -1), (74, -1)] ∧
      r.m.inputText.Width = 74) :=
  ⟨⟨_, rfl, rfl, rfl⟩, ⟨_, rfl, rfl, rfl⟩⟩

/-- C14: after a resize event to terminal width `W` on a session state the
Input Line's width is never negative, and for every `W` whose difference
`W - 6` is a 64-bit integer it is `max(0, W - horizontal document margins -
horizontal input border size)`, which with the styles of the code is
`max(0, W - 6)`. -/
theorem C14_input_width (L : Lib σ ν) (tabs : List String) (m : model σ ν) (W H : Int)
    (h : Inv tabs m) :
    docStyle.GetHorizontalMargins = 4 ∧ inputTextStyle.GetHorizontalBorderSize = 2 ∧
    ∃ r, Update L m (.WindowSizeMsg W H) = .ok r ∧
      0 ≤ r.m.inputText.Width ∧
      r.m.inputText.Width = max 0 (inputWidth W) ∧
      (-9223372036854775802 ≤ W → W < 9223372036854775808 →
        r.m.inputText.Width =
          max 0 (W - docStyle.GetHorizontalMargins - inputTextStyle.GetHorizontalBorderSize) ∧
        r.m.inputText.Width = max 0 (W - 6)) := by
  obtain ⟨hh, _, r, hr, _, _, _, _, _, _, _, hin, _⟩ := updateWindowSize_spec L W H
    [(L.tiUpdate m.inputText (.WindowSizeMsg W H)).2]
    (h.withInput (L.tiUpdate m.inputText (.WindowSizeMsg W H)).1)
  have hw0 : r.m.inputText.Width = max 0 (inputWidth W) := by
    rw [hin]
  refine ⟨by decide, by decide, r, (Update_windowSize L m W H).trans hr, ?_, hw0, ?_⟩
  · rw [hw0]
    exact le_max_left 0 _
  · intro hlo hhi
    have hw : r.m.inputText.Width = max 0 (W - 6) := by
      rw [hw0, inputWidth_eq W hlo hhi]
    refine ⟨?_, hw⟩
    rw [hw]
    have h1 : docStyle.GetHorizontalMargins = 4 := by decide
    have h2 : inputTextStyle.GetHorizontalBorderSize = 2 := by decide
    rw [h1, h2]
    congr 1
    omega

/-- C14 on the initial state over `A`, `B`: a resize to width 80 gives the
Input Line the width 74. -/
theorem C14_input_width_witness :
    ∃ r, Update simpleLib (initialModel simpleLib ["A", "B"] echoExecute)
        (.WindowSizeMsg 80 24) = .ok r ∧ r.m.inputText.Width = 74 :=
  match (C14_input_width simpleLib ["A", "B"] (initialModel simpleLib ["A", "B"] echoExecute)
    80 24 (initialModel_inv simpleLib ["A", "B"] echoExecute (by decide))).2.2 with
  | ⟨r, hr, _, _, hw⟩ => ⟨r, hr, (hw (by decide) (by decide)).2⟩

/-- C15: on every state whose Input Line is not focused or holds no text, the
Enter key through `Update` makes no call to the collaborator and leaves the
tab list, every tab buffer, every surface, the active index and the readiness
flag unchanged. -/
theorem C15_submit_needs_text (L : Lib σ ν) (m : model σ ν) (k : KeyMsg)
    (hk : k.type = .KeyEnter) (hrunes : k.Runes = []) (hL : EnterKeepsInput L)
    (h : L.tiFocused m.inputText = false ∨ L.tiValue m.inputText = "") :
    ∃ r, Update L m (.KeyMsg k) = .ok r ∧ r.calls = [] ∧
      r.m.tabs = m.tabs ∧ r.m.tabContents = m.tabContents ∧
      r.m.tabViewports = m.tabViewports ∧ r.m.activeTab = m.activeTab ∧
      r.m.ready = m.ready := by
  obtain ⟨hval, hfoc⟩ := hL m.inputText k hk hrunes
  have h' : L.tiFocused (L.tiUpdate m.inputText (.KeyMsg k)).1 = false ∨
      L.tiValue (L.tiUpdate m.inputText (.KeyMsg k)).1 = "" := by
    rcases h with h | h
    · exact Or.inl (hfoc.trans h)
    · exact Or.inr (hval.trans h)
  exact ⟨_, (Update_enter L m k hk).trans (updateEnter_idle L _ _ h'),
    rfl, rfl, rfl, rfl, rfl, rfl⟩

/-- C15 on tab `A` holding `"abc"` with an empty Input Line: Enter calls
nothing and changes no buffer. -/
theorem C15_submit_needs_text_witness :
    ∃ r, Update simpleLib (sampleModel "" ["abc", "x"] 0 true echoExecute) enterKey = .ok r ∧
      r.calls = [] ∧ r.m.tabContents = ["abc", "x"] ∧ r.m.activeTab = 0 ∧ r.m.ready = true :=
  match C15_submit_needs_text simpleLib (sampleModel "" ["abc", "x"] 0 true echoExecute)
    { type := .KeyEnter, Runes := [], Alt := false } rfl rfl simpleLib_enterKeepsInput
    (Or.inr rfl) with
  | ⟨r, hr, hcalls, _, hc, _, ha, hready⟩ => ⟨r, hr, hcalls, hc, ha, hready⟩

/-- C16: in every state reachable from `initialModel(tabs, execute)` with
`N >= 1` tabs, the tab names are `tabs`, the active index is in `[0, N)`, the
buffers and the surfaces have length `N`, the reads `tabs[active]`,
`tabContents[active]` and `tabViewports[active]` succeed, and neither `Update`
on any event nor `View` panics. -/
theorem C16_reachable_invariant (L : Lib σ ν) (tabs : List String) (execute : ExecuteCommand)
    (hN : 1 ≤ tabs.length) (hB : len tabs < 9223372036854775808) :
    ∀ m : model σ ν, Reachable L tabs execute m →
      m.tabs = tabs ∧ 0 ≤ m.activeTab ∧ m.activeTab < len tabs ∧
      m.tabContents.length = tabs.length ∧ m.tabViewports.length = tabs.length ∧
      (∃ t b vp, index m.tabs m.activeTab = .ok t ∧ index m.tabContents m.activeTab = .ok b ∧
        index m.tabViewports m.activeTab = .ok vp) ∧
      (∀ msg : Msg, ∃ r, Update L m msg = .ok r) ∧
      (∃ s, View L m = .ok s) := by
  intro m hm
  have h := hm.inv hN hB
  obtain ⟨t, ht⟩ := getElem?_of_lt m.tabs m.activeTab.toNat
    (by rw [h.tabs_eq]; exact h.toNat_lt)
  obtain ⟨b, hb⟩ := getElem?_of_lt m.tabContents m.activeTab.toNat
    (by rw [h.contents_len]; exact h.toNat_lt)
  obtain ⟨vp, hvp⟩ := getElem?_of_lt m.tabViewports m.activeTab.toNat
    (by rw [h.viewports_len]; exact h.toNat_lt)
  refine ⟨h.tabs_eq, h.active_nonneg, h.active_lt, h.contents_len, h.viewports_len,
    ⟨t, b, vp, index_int _ _ t h.active_nonneg ht, index_int _ _ b h.active_nonneg hb,
      index_int _ _ vp h.active_nonneg hvp⟩, ?_, View_ok L h⟩
  intro msg
  obtain ⟨r, hr, _⟩ := Update_inv L msg h hB
  exact ⟨r, hr⟩

/-- C16 on the tabs `A`, `B`: the state after a first resize and a Tab key has
active index below 2, two buffers and two surfaces. -/
theorem C16_reachable_invariant_witness :
    ∃ r1 r2, Update simpleLib (initialModel simpleLib ["A", "B"] echoExecute)
        (.WindowSizeMsg 80 24) = .ok r1 ∧
      Update simpleLib r1.m tabKey = .ok r2 ∧
      r2.m.tabs = ["A", "B"] ∧ 0 ≤ r2.m.activeTab ∧ r2.m.activeTab < 2 ∧
      r2.m.tabContents.length = 2 ∧ r2.m.tabViewports.length = 2 ∧
      ∃ s, View simpleLib r2.m = .ok s :=
  have h := C16_reachable_invariant simpleLib ["A", "B"] echoExecute (by decide) (by decide)
  match (h _ Reachable.init).2.2.2.2.2.2.1 (.WindowSizeMsg 80 24) with
  | ⟨r1, hr1⟩ =>
    match (h _ (Reachable.step _ _ r1 Reachable.init hr1)).2.2.2.2.2.2.1 tabKey with
    | ⟨r2, hr2⟩ =>
      match h _ (Reachable.step _ _ r2 (Reachable.step _ _ r1 Reachable.init hr1) hr2) with
      | ⟨ht, h0, hlt, hc, hv, _, _, hview⟩ => ⟨r1, r2, hr1, hr2, ht, h0, hlt, hc, hv, hview⟩

/-- C18 as stated fails: typing `"hello"` and pressing Enter before any resize
reaches a state that is not ready and whose first buffer is `"echo:hello\n"`. -/
theorem C18_counterexample :
    ∃ m, Reachable simpleLib ["A", "B"] echoExecute m ∧ m.ready = false ∧
      m.tabContents[0]? = some "echo:hello\n" :=
  ⟨_, Reachable.step _ enterKey _
    (Reachable.step _ (typeKey "hello") _ Reachable.init rfl) rfl, rfl, rfl⟩

/-- C18, amended: in every state reachable from `initialModel` by events other
than the Enter key all tab buffers are the empty string, so a first resize in
such a state seeds every surface it constructs with empty content. -/
theorem C18_buffers_empty_before_submit (L : Lib σ ν) (tabs : List String)
    (execute : ExecuteCommand) (hN : 1 ≤ tabs.length)
    (hB : len tabs < 9223372036854775808) :
    ∀ m : model σ ν, ReachableNoSubmit L tabs execute m →
      m.tabContents = List.replicate tabs.length "" ∧
      (m.ready = false → ∀ W H : Int,
        ∃ hh r, headerHeight L { m with width := W, height := H } = .ok hh ∧
          Update L m (.WindowSizeMsg W H) = .ok r ∧ r.m.ready = true ∧
          r.m.tabViewports = List.replicate tabs.length
            (L.vpSetContent (L.vpNew (viewportWidth W) (viewportContentHeight H hh)) "")) := by
  intro m hm
  have hbuf := hm.buffers hN hB
  have h := hm.reachable.inv hN hB
  refine ⟨hbuf, fun hr W H => ?_⟩
  obtain ⟨hh, hhh, r, hu, hI, _, _, hready, _, _, _, _, hfirst, _⟩ :=
    updateWindowSize_spec L W H [(L.tiUpdate m.inputText (.WindowSizeMsg W H)).2]
      (h.withInput (L.tiUpdate m.inputText (.WindowSizeMsg W H)).1)
  refine ⟨hh, r, hhh, (Update_windowSize L m W H).trans hu, hready, ?_⟩
  apply List.ext_getElem?
  intro i
  rw [List.getElem?_replicate]
  by_cases hi : i < tabs.length
  · rw [if_pos hi]
    apply hfirst hr i ""
    show m.tabContents[i]? = some ""
    rw [hbuf, List.getElem?_replicate, if_pos hi]
  · rw [if_neg hi]
    exact List.getElem?_eq_none (by rw [hI.viewports_len]; exact Nat.le_of_not_lt hi)

/-- C18, amended, on the tabs `A`, `B`: after a Tab key and no Enter the
buffers are empty and the first resize makes two surfaces with empty content. -/
theorem C18_buffers_empty_before_submit_witness :
    ∃ r1 r2, Update simpleLib (initialModel simpleLib ["A", "B"] echoExecute) tabKey = .ok r1 ∧
      r1.m.tabContents = ["", ""] ∧
      Update simpleLib r1.m (.WindowSizeMsg 80 24) = .ok r2 ∧ r2.m.ready = true ∧
      r2.m.tabViewports.map (fun v => v.core.content) = ["", ""] :=
  have h := C18_buffers_empty_before_submit simpleLib ["A", "B"] echoExecute
    (by decide) (by decide)
  have hstep : ReachableNoSubmit simpleLib ["A", "B"] echoExecute _ :=
    ReachableNoSubmit.step _ tabKey _ ReachableNoSubmit.init
      (fun k hk => by cases hk; decide) rfl
  match (h _ hstep).2 rfl 80 24 with
  | ⟨_, r2, _, hr2, hready, hv⟩ => ⟨_, r2, rfl, (h _ hstep).1, hr2, hready, by rw [hv]; rfl⟩

end Console
